import Mathlib

/-!
Verification of the AI-Task-Analyzer core: the JSON recovery parser
(`app/utils/json_parser.py`) and the multi-agent analysis orchestrator
(`app/services/task_service.py` with its API endpoints in
`app/api/v1/endpoints/tasks.py`), shallowly embedded from the backend_2
sources.

Modelling conventions:
 * Python JSON values are the inductive `JsonValue`.  JSON numbers are
   modelled as integers (the float grammar is out of scope of the claims);
   string escapes cover the quote, backslash and the common control
   characters, which is the fragment `json.dumps` emits for such strings.
 * `json.loads` is modelled by `jsonLoads`, a fuel-based recursive-descent
   reader of the standard JSON grammar (objects, arrays, strings, integers,
   `true`/`false`/`null`, the four JSON whitespace characters).  Duplicate
   object keys follow Python dict semantics: the first occurrence keeps its
   position, the last occurrence keeps its value.
 * `json.dumps` is modelled by `dumpVal` with the default separators
   `", "` and `": "`.
 * Machine-level concerns (logging, wall-clock time, the LLM transport)
   are external collaborators; agent step results are supplied by an
   environment record, and elapsed time is an abstract number.
-/

/-- A parsed JSON value, as produced by the Python `json` module on the
fragment used by this system (integer numbers). -/
inductive JsonValue where
  | null : JsonValue
  | bool : Bool → JsonValue
  | num : Int → JsonValue
  | str : String → JsonValue
  | arr : List JsonValue → JsonValue
  | obj : List (String × JsonValue) → JsonValue

/-- The four whitespace characters accepted between JSON tokens
(`json` module whitespace: space, tab, newline, carriage return). -/
def isWsChar (c : Char) : Bool :=
  c = ' ' || c = '\t' || c = '\n' || c = '\r'

/-- Skip JSON whitespace. -/
def skipWs (cs : List Char) : List Char := cs.dropWhile isWsChar

/-- ASCII decimal digit test, by code point. -/
def pyDigit (c : Char) : Bool := 48 ≤ c.toNat && c.toNat ≤ 57

/-- Decode one JSON string escape character (the fragment after a
backslash).  `\uXXXX` escapes are outside the modelled fragment. -/
def unescChar (c : Char) : Option Char :=
  if c = '"' then some '"'
  else if c = '\\' then some '\\'
  else if c = '/' then some '/'
  else if c = 'n' then some '\n'
  else if c = 't' then some '\t'
  else if c = 'r' then some '\r'
  else if c = 'b' then some '\x08'
  else if c = 'f' then some '\x0c'
  else none

/-- Read a JSON string body (the part after the opening quote), returning
the decoded characters and the remainder after the closing quote. -/
def parseStrBody : List Char → Option (List Char × List Char)
  | [] => none
  | c :: rest =>
    if c = '"' then some ([], rest)
    else if c = '\\' then
      match rest with
      | [] => none
      | e :: rest2 =>
        match unescChar e with
        | some d => (parseStrBody rest2).map (fun p => (d :: p.1, p.2))
        | none => none
    else (parseStrBody rest).map (fun p => (c :: p.1, p.2))

/-- Big-endian accumulation of decimal digit characters. -/
def digitsVal (l : List Char) : Nat :=
  l.foldl (fun a c => 10 * a + (c.toNat - 48)) 0

/-- Python dict assignment on an association list: an existing key keeps
its position and receives the new value, a new key is appended.  This is
how `json.loads` resolves duplicate object keys. -/
def objInsert (fs : List (String × JsonValue)) (k : String) (v : JsonValue) :
    List (String × JsonValue) :=
  match fs with
  | [] => [(k, v)]
  | (k1, v1) :: rest =>
    if k1 = k then (k, v) :: rest else (k1, v1) :: objInsert rest k v

mutual

/-- Read one JSON value; `fuel` bounds the recursion depth.  The entry
point `jsonLoads` supplies fuel that is always sufficient. -/
def parseVal : Nat → List Char → Option (JsonValue × List Char)
  | 0, _ => none
  | _ + 1, [] => none
  | fuel + 1, c :: r =>
    if c = 'n' then
      if ['u', 'l', 'l'].isPrefixOf r then some (.null, r.drop 3) else none
    else if c = 't' then
      if ['r', 'u', 'e'].isPrefixOf r then some (.bool true, r.drop 3) else none
    else if c = 'f' then
      if ['a', 'l', 's', 'e'].isPrefixOf r then some (.bool false, r.drop 4) else none
    else if c = '"' then
      (parseStrBody r).map (fun p => (.str (String.mk p.1), p.2))
    else if c = '[' then parseArr fuel (skipWs r)
    else if c = '{' then parseObj fuel (skipWs r)
    else if c = '-' then
      let digs := r.takeWhile pyDigit
      if digs.isEmpty then none
      else some (.num (-(Int.ofNat (digitsVal digs))), r.dropWhile pyDigit)
    else if pyDigit c then
      let digs := (c :: r).takeWhile pyDigit
      some (.num (Int.ofNat (digitsVal digs)), (c :: r).dropWhile pyDigit)
    else none

/-- Read the inside of a JSON array (input starts after `[` and leading
whitespace). -/
def parseArr : Nat → List Char → Option (JsonValue × List Char)
  | 0, _ => none
  | fuel + 1, cs =>
    if cs.head? = some ']' then some (.arr [], cs.tail)
    else (parseElems fuel cs []).map (fun p => (.arr p.1, p.2))

/-- Read one or more comma-separated array elements up to `]`. -/
def parseElems : Nat → List Char → List JsonValue →
    Option (List JsonValue × List Char)
  | 0, _, _ => none
  | fuel + 1, cs, acc =>
    match parseVal fuel cs with
    | none => none
    | some (v, r) =>
      let r1 := skipWs r
      if r1.head? = some ',' then parseElems fuel (skipWs r1.tail) (acc ++ [v])
      else if r1.head? = some ']' then some (acc ++ [v], r1.tail)
      else none

/-- Read the inside of a JSON object (input starts after `{` and leading
whitespace). -/
def parseObj : Nat → List Char → Option (JsonValue × List Char)
  | 0, _ => none
  | fuel + 1, cs =>
    if cs.head? = some '}' then some (.obj [], cs.tail)
    else (parseMembers fuel cs []).map (fun p => (.obj p.1, p.2))

/-- Read one or more comma-separated object members up to `}`,
accumulating with Python dict assignment semantics. -/
def parseMembers : Nat → List Char → List (String × JsonValue) →
    Option (List (String × JsonValue) × List Char)
  | 0, _, _ => none
  | fuel + 1, cs, acc =>
    if cs.head? = some '"' then
      match parseStrBody cs.tail with
      | none => none
      | some (kcs, r1) =>
        let r2 := skipWs r1
        if r2.head? = some ':' then
          match parseVal fuel (skipWs r2.tail) with
          | none => none
          | some (v, r3) =>
            let acc1 := objInsert acc (String.mk kcs) v
            let r4 := skipWs r3
            if r4.head? = some ',' then parseMembers fuel (skipWs r4.tail) acc1
            else if r4.head? = some '}' then some (acc1, r4.tail)
            else none
        else none
    else none

end

/-- `json.loads`: parse a whole string as one JSON document, allowing
surrounding whitespace only; `none` models a raised `JSONDecodeError`.
The fuel `2 * length + 2` exceeds the reader's recursion depth on any
input of that length. -/
def jsonLoads (cs : List Char) : Option JsonValue :=
  match parseVal (2 * cs.length + 2) (skipWs cs) with
  | some (v, rest) => if (skipWs rest).isEmpty then some v else none
  | none => none

/-- Serialize one character of a JSON string, as `json.dumps` does for
the quote, backslash and common control characters. -/
def escChar (c : Char) : List Char :=
  if c = '"' then ['\\', '"']
  else if c = '\\' then ['\\', '\\']
  else if c = '\n' then ['\\', 'n']
  else if c = '\t' then ['\\', 't']
  else if c = '\r' then ['\\', 'r']
  else [c]

/-- Serialize a JSON string body. -/
def escBody : List Char → List Char
  | [] => []
  | c :: rest => escChar c ++ escBody rest

/-- Decimal digit character for a digit value below ten. -/
def digitChar (d : Nat) : Char := Char.ofNat (48 + d)

/-- Little-endian decimal digits of `n`; the fuel (any bound above `n`)
makes the recursion structural so that terms evaluate definitionally. -/
def natDigitsRev : Nat → Nat → List Char
  | 0, _ => []
  | fuel + 1, n =>
    if n = 0 then [] else digitChar (n % 10) :: natDigitsRev fuel (n / 10)

/-- Decimal rendering of a natural number, most significant digit first. -/
def dumpNat (n : Nat) : List Char :=
  if n = 0 then ['0'] else (natDigitsRev (n + 1) n).reverse

/-- Decimal rendering of an integer. -/
def dumpInt (n : Int) : List Char :=
  if n < 0 then '-' :: dumpNat n.natAbs else dumpNat n.toNat

/-- Serialized form of one object key including the `": "` separator
(`json.dumps` default). -/
def dumpKey (k : String) : List Char :=
  '"' :: escBody k.data ++ ['"', ':', ' ']

mutual

/-- `json.dumps` with the default separators `", "` and `": "`. -/
def dumpVal : JsonValue → List Char
  | .null => "null".data
  | .bool true => "true".data
  | .bool false => "false".data
  | .num n => dumpInt n
  | .str s => '"' :: escBody s.data ++ ['"']
  | .arr xs => '[' :: dumpElemsSep xs ++ [']']
  | .obj fs => '{' :: dumpMembersSep fs ++ ['}']

/-- Array elements joined by `", "`. -/
def dumpElemsSep : List JsonValue → List Char
  | [] => []
  | [x] => dumpVal x
  | x :: y :: xs => dumpVal x ++ ',' :: ' ' :: dumpElemsSep (y :: xs)

/-- Object members joined by `", "`. -/
def dumpMembersSep : List (String × JsonValue) → List Char
  | [] => []
  | [(k, v)] => dumpKey k ++ dumpVal v
  | (k, v) :: m :: fs => dumpKey k ++ dumpVal v ++ ',' :: ' ' :: dumpMembersSep (m :: fs)

end

/-- Membership test for a key being absent from an association list. -/
def keyNotIn (k : String) (fs : List (String × JsonValue)) : Bool :=
  fs.all (fun p => p.1 ≠ k)

/-- All object keys pairwise distinct (the invariant of values built by
`jsonLoads`). -/
def noDupKeys : List (String × JsonValue) → Bool
  | [] => true
  | (k, _) :: rest => keyNotIn k rest && noDupKeys rest

mutual

/-- Well-formedness of a JSON value: every object in it has pairwise
distinct keys.  Every value produced by `jsonLoads` is well-formed. -/
def wfJson : JsonValue → Bool
  | .arr xs => wfList xs
  | .obj fs => noDupKeys fs && wfPairs fs
  | .null | .bool _ | .num _ | .str _ => true

/-- `wfJson` on every element. -/
def wfList : List JsonValue → Bool
  | [] => true
  | x :: xs => wfJson x && wfList xs

/-- `wfJson` on every member value. -/
def wfPairs : List (String × JsonValue) → Bool
  | [] => true
  | p :: fs => wfJson p.2 && wfPairs fs

end

mutual

/-- A recursion-fuel budget sufficient for `parseVal` to read the
serialized form of a value. -/
def fuelNeed : JsonValue → Nat
  | .arr xs => 2 + elemsFuel xs
  | .obj fs => 2 + membersFuel fs
  | .null | .bool _ | .num _ | .str _ => 1

/-- Fuel budget for the element loop. -/
def elemsFuel : List JsonValue → Nat
  | [] => 0
  | x :: xs => 2 + fuelNeed x + elemsFuel xs

/-- Fuel budget for the member loop. -/
def membersFuel : List (String × JsonValue) → Nat
  | [] => 0
  | p :: fs => 2 + fuelNeed p.2 + membersFuel fs

end

/-- Index of the first occurrence of `pat` as a contiguous sublist, if any
(the leftmost match of a literal regex fragment). -/
def findSub (pat : List Char) : List Char → Option Nat
  | [] => if pat.isPrefixOf ([] : List Char) then some 0 else none
  | c :: rest =>
    if pat.isPrefixOf (c :: rest) then some 0
    else (findSub pat rest).map (· + 1)

/-- Python whitespace for `str.strip` (ASCII fragment). -/
def pyIsSpace (c : Char) : Bool :=
  c = ' ' || c = '\t' || c = '\n' || c = '\r' || c = '\x0b' || c = '\x0c'

/-- Python `str.strip()`. -/
def pyStrip (cs : List Char) : List Char :=
  ((cs.dropWhile pyIsSpace).reverse.dropWhile pyIsSpace).reverse

/-- The triple-backtick fence delimiter. -/
def fenceMark : List Char := "```".data

/-- Case-insensitive test for the `json` language tag at the start of the
fence body. -/
def startsWithJsonTag (cs : List Char) : Bool :=
  match cs with
  | c1 :: c2 :: c3 :: c4 :: _ =>
    (c1 = 'j' || c1 = 'J') && (c2 = 's' || c2 = 'S') &&
    (c3 = 'o' || c3 = 'O') && (c4 = 'n' || c4 = 'N')
  | _ => false

/-- `extract_json_from_markdown`: the stripped body of the first fenced
code block.  Mirrors `re.search` of the pattern
triple-backtick, optional case-insensitive `json` tag, lazily captured
body, closing triple-backtick: the leftmost viable opening fence is the
first occurrence of three backticks followed somewhere later by three
backticks, and the lazy body ends at the first closing occurrence. -/
def extract_json_from_markdown (cs : List Char) : Option (List Char) :=
  match findSub fenceMark cs with
  | none => none
  | some i =>
    let rest := cs.drop (i + 3)
    let rest2 := if startsWithJsonTag rest then rest.drop 4 else rest
    match findSub fenceMark rest2 with
    | none => none
    | some k => some (pyStrip (rest2.take k))

/-- First index of a character in a list. -/
def firstIdx (c : Char) (cs : List Char) : Option Nat := findSub [c] cs

/-- Last index of a character in a list. -/
def lastIdx (c : Char) (cs : List Char) : Option Nat :=
  (findSub [c] cs.reverse).map (fun i => cs.length - 1 - i)

/-- The span matched by `re.search` for the greedy pattern
open-bracket, anything, close-bracket (for example `\x7b[\s\S]*\x7d`):
it runs from the first opening bracket to the last closing bracket of the
same kind, and exists exactly when that first opening precedes that last
closing.  (The regex matches at position `i` iff `s[i]` is the opening
bracket and some closing bracket follows; the leftmost such `i` is the
first opening bracket, and greediness extends the match to the last
closing bracket of the string.)  Returns the start index and the span. -/
def spanOf (opn cls : Char) (cs : List Char) : Option (Nat × List Char) :=
  match firstIdx opn cs, lastIdx cls cs with
  | some i, some j =>
    if i < j then some (i, (cs.drop i).take (j - i + 1)) else none
  | _, _ => none

/-- Attempt 3 of `robust_json_parser`: the object span and the array span,
preferring whichever starts earlier when both exist. -/
def findJsonCandidate (cs : List Char) : Option (List Char) :=
  match spanOf '{' '}' cs, spanOf '[' ']' cs with
  | some (i, o), some (j, a) => if i < j then some o else some a
  | some (_, o), none => some o
  | none, some (_, a) => some a
  | none, none => none

/-- Parse the selected bracket span, if any. -/
def fallbackScan (cs : List Char) : Option JsonValue :=
  match findJsonCandidate cs with
  | some c => jsonLoads c
  | none => none

/-- The kinds of non-string Python values the parser can receive
(`None`, numbers, already-parsed containers). -/
inductive NonStrInput where
  | pyNone : NonStrInput
  | pyNum : Int → NonStrInput
  | pyListLike : NonStrInput
  | pyDictLike : NonStrInput

/-- A Python argument to `robust_json_parser`: a string or not. -/
inductive PyInput where
  | str : String → PyInput
  | nonStr : NonStrInput → PyInput

/-- `robust_json_parser`: the ordered fallback chain.
1. direct `json.loads`;
2. if a fenced block is present and its stripped body is non-empty
   (Python truthiness), try `json.loads` on the body, and on failure keep
   the body as the string for the next attempt;
3. scan for the earliest-starting bracket span and try to parse it;
4. otherwise `None`.  Non-string input short-circuits to `None`. -/
def robustJsonParser : PyInput → Option JsonValue
  | .nonStr _ => none
  | .str s =>
    let cs := s.data
    match jsonLoads cs with
    | some v => some v
    | none =>
      match extract_json_from_markdown cs with
      | some e =>
        if e.isEmpty then fallbackScan cs
        else
          match jsonLoads e with
          | some v => some v
          | none => fallbackScan e
      | none => fallbackScan cs

/-- A Python dict as the agents return it: string keys to JSON values.
Keys are unique in a real dict; lookup takes the first match. -/
def dictGet (d : List (String × JsonValue)) (k : String) : Option JsonValue :=
  (d.find? (fun p => p.1 = k)).map (·.2)

/-- `is_error_output` from `TaskAnalysisService.analyze_task`: the output
dict has an `"error"` key whose value is not `None`.  (The
`isinstance(output, ErrorSchema)` arm is vestigial: every agent method
returns a plain dict, via `model_dump`.) -/
def isErrorOutput (d : List (String × JsonValue)) : Bool :=
  match dictGet d "error" with
  | some .null => false
  | some _ => true
  | none => false

/-- Python truthiness of a JSON-like value. -/
def jsonTruthy : JsonValue → Bool
  | .null => false
  | .bool b => b
  | .num n => n ≠ 0
  | .str s => s ≠ ""
  | .arr xs => ¬xs.isEmpty
  | .obj fs => ¬fs.isEmpty

/-- The Python idiom `x if x else dflt` on an optional value. -/
def pyOrElse (o : Option JsonValue) (dflt : JsonValue) : JsonValue :=
  match o with
  | some v => if jsonTruthy v then v else dflt
  | none => dflt

/-- The `task_details` dict handed to `analyze_task`.  A missing
`"description"` key (`none`) makes the Python subscript raise `KeyError`;
`user_story` and `context` are read with `.get` and may be absent or
`None`, both folded into `none`. -/
structure TaskDetails where
  description : Option String
  userStory : Option String
  contextV : Option String
deriving Repr

/-- The agent collaborators: each analysis operation is an external call
returning the dict that the agent method produces (success payload or
`ErrorSchema.model_dump` dict).  `elapsed` is the wall-clock duration the
`time.time()` collaborator reports for the run. -/
structure AgentEnv where
  analyzeTaskOp : String → Option String → Option String → List (String × JsonValue)
  generateUserStories : String → Option String → List (String × JsonValue)
  analyzeUx : String → JsonValue → Option String → List (String × JsonValue)
  designDatabase : JsonValue → Option String → List (String × JsonValue)
  breakDownTasks : String → JsonValue → JsonValue → Option String → List (String × JsonValue)
  designTestStrategy : String → JsonValue → JsonValue → Option String → List (String × JsonValue)
  analyzeSecurity : String → JsonValue → Option String → List (String × JsonValue)
  estimateTimeline : JsonValue → List (String × JsonValue)
  planInfrastructure : String → JsonValue → Option String → List (String × JsonValue)
  elapsed : Nat

/-- The `analysis_result` dict: one entry per analysis field, each holding
either extracted data, `None` (as `.null`), the string `"Error"`, or an
ErrorSchema dict.  All ten keys are always present. -/
structure AnalysisResult where
  category : JsonValue
  priority : JsonValue
  user_stories : JsonValue
  ux_recommendations : JsonValue
  database_design : JsonValue
  technical_tasks : JsonValue
  test_strategy : JsonValue
  security_analysis : JsonValue
  timeline_estimate : JsonValue
  infrastructure_plan : JsonValue

/-- One recorded agent invocation, with the arguments it received. -/
inductive StepCall where
  | analyzeTask (desc : String) (us ctx : Option String)
  | genStories (desc : String) (ctx : Option String)
  | ux (desc : String) (stories : JsonValue) (ctx : Option String)
  | designDb (stories : JsonValue) (ctx : Option String)
  | breakDown (desc : String) (stories dbDesign : JsonValue) (ctx : Option String)
  | testStrategy (desc : String) (stories specs : JsonValue) (ctx : Option String)
  | security (desc : String) (specs : JsonValue) (ctx : Option String)
  | timeline (tasks : JsonValue)
  | infra (desc : String) (reqs : JsonValue) (ctx : Option String)

/-- Whether a recorded call is the UX step. -/
def StepCall.isUx : StepCall → Bool
  | .ux _ _ _ => true
  | _ => false

/-- A persisted `tasks` row (the columns the claims concern; timestamps
are external clock values and are omitted). -/
structure TaskRow where
  id : Nat
  description : String
  userStory : Option String
  contextV : Option String
  status : String
  analysis : AnalysisResult

/-- A persisted `agent_executions` row. -/
structure ExecRow where
  taskId : Nat
  agentType : String
  inputData : TaskDetails
  outputData : AnalysisResult
  executionTime : Nat
  success : Bool
  errorMessage : Option String

/-- The task store: `tasks` and `agent_executions` tables.  Row ids are
the autoincrement position (the tables are never deleted from). -/
structure DbState where
  tasks : List TaskRow
  execs : List ExecRow

/-- Outcome of `TaskAnalysisService.analyze_task`: either the top-level
error dict `\x7b"error": msg\x7d` or the assembled analysis result. -/
inductive AnalyzeOutcome where
  | errorDict (msg : String)
  | result (r : AnalysisResult)

/-- Whether the outcome is an assembled result. -/
def AnalyzeOutcome.isResult : AnalyzeOutcome → Bool
  | .result _ => true
  | .errorDict _ => false

/-- The `ErrorSchema(error="Dependency Error", ...)` dict stored in the
UX field when user-story generation fails.  `ErrorSchema` is an alias of
`ErrorResponse`, which declares only `error` and `detail`; pydantic v2
ignores the undeclared `message`/`agent_type` keyword arguments and
`exclude_none` drops `detail`, so the dump is exactly this dict. -/
def dependencyErrorDict : JsonValue :=
  .obj [("error", .str "Dependency Error")]

/-- `TaskAnalysisService.analyze_task` (backend_2), embedded as a pure
state transformer.  Returns the outcome, the updated store, and the trace
of agent invocations in call order.  The only exception source inside the
orchestrator `try` in this model is the `task_details["description"]`
subscript (agents return dicts and never raise); the surrounding
`except` turns it into the top-level error dict. -/
def analyze_task (aiEnabled : Bool) (env : AgentEnv) (db : DbState)
    (td : TaskDetails) : AnalyzeOutcome × DbState × List StepCall :=
  if !aiEnabled then
    (.errorDict "AI analysis not available - LLM configuration missing", db, [])
  else
    match td.description with
    | none => (.errorDict "Analysis failed: 'description'", db, [])
    | some desc =>
      -- Step 1: category/priority
      let cpRaw := env.analyzeTaskOp desc td.userStory td.contextV
      let cat := if isErrorOutput cpRaw then JsonValue.str "Error"
        else (dictGet cpRaw "category").getD .null
      let pri := if isErrorOutput cpRaw then JsonValue.str "Error"
        else (dictGet cpRaw "priority").getD .null
      -- Step 2: user stories, then UX only on success
      let storiesRaw := env.generateUserStories desc td.contextV
      let productFailed := isErrorOutput storiesRaw
      let storiesField := if productFailed then JsonValue.obj storiesRaw
        else (dictGet storiesRaw "user_stories").getD .null
      let cus : Option JsonValue :=
        if productFailed then none
        else some ((dictGet storiesRaw "user_stories").getD (.arr []))
      let uxField :=
        if productFailed then dependencyErrorDict
        else
          let uxRaw := env.analyzeUx desc ((dictGet storiesRaw "user_stories").getD (.arr [])) td.contextV
          if isErrorOutput uxRaw then JsonValue.obj uxRaw
          else (dictGet uxRaw "recommendations").getD .null
      -- Step 3: technical analysis with degraded inputs
      let storiesArg := pyOrElse cus (.arr [])
      let ddRaw := env.designDatabase storiesArg td.contextV
      let ddFailed := isErrorOutput ddRaw
      let ddField := if ddFailed then JsonValue.obj ddRaw
        else (dictGet ddRaw "tables").getD .null
      let cdd : Option JsonValue := if ddFailed then none else some (.obj ddRaw)
      let ddArg := pyOrElse cdd (.obj [])
      let ttRaw := env.breakDownTasks desc storiesArg ddArg td.contextV
      let ttFailed := isErrorOutput ttRaw
      let ttField := if ttFailed then JsonValue.obj ttRaw
        else (dictGet ttRaw "tasks").getD .null
      let cttList : Option JsonValue :=
        if ttFailed then none else some ((dictGet ttRaw "tasks").getD (.arr []))
      let cttDict : Option JsonValue := if ttFailed then none else some (.obj ttRaw)
      -- Steps 4-5: quality and operations, raw dicts stored as-is
      let specsArg := pyOrElse cttDict (.obj [])
      let tsRaw := env.designTestStrategy desc storiesArg specsArg td.contextV
      let secRaw := env.analyzeSecurity desc specsArg td.contextV
      let tasksArg := pyOrElse cttList (.arr [])
      let tlRaw := env.estimateTimeline tasksArg
      let infRaw := env.planInfrastructure desc specsArg td.contextV
      let result : AnalysisResult :=
        { category := cat, priority := pri, user_stories := storiesField
          ux_recommendations := uxField, database_design := ddField
          technical_tasks := ttField, test_strategy := .obj tsRaw
          security_analysis := .obj secRaw, timeline_estimate := .obj tlRaw
          infrastructure_plan := .obj infRaw }
      -- Persist a new Task row, then one AgentExecution audit row
      let taskId := db.tasks.length + 1
      let row : TaskRow :=
        { id := taskId, description := desc, userStory := td.userStory
          contextV := td.contextV, status := "Analyzed", analysis := result }
      let exec : ExecRow :=
        { taskId := taskId, agentType := "comprehensive_analysis"
          inputData := td, outputData := result, executionTime := env.elapsed
          success := true, errorMessage := none }
      let db1 : DbState := { tasks := db.tasks ++ [row], execs := db.execs ++ [exec] }
      let trace : List StepCall :=
        [.analyzeTask desc td.userStory td.contextV, .genStories desc td.contextV]
        ++ (if productFailed then []
            else [.ux desc ((dictGet storiesRaw "user_stories").getD (.arr [])) td.contextV])
        ++ [.designDb storiesArg td.contextV,
            .breakDown desc storiesArg ddArg td.contextV,
            .testStrategy desc storiesArg specsArg td.contextV,
            .security desc specsArg td.contextV,
            .timeline tasksArg,
            .infra desc specsArg td.contextV]
      (.result result, db1, trace)

/-- `TaskAnalysisService.get_task`. -/
def get_task (db : DbState) (id : Nat) : Option TaskRow :=
  db.tasks.find? (fun r => r.id = id)

/-- `TaskAnalysisService.update_task` at the `reanalyze` call site, where
the updates dict is exactly the ten analysis fields: the matching row's
analysis columns are overwritten in place. -/
def update_task (db : DbState) (id : Nat) (r : AnalysisResult) : DbState :=
  { db with tasks := db.tasks.map (fun row =>
      if row.id = id then { row with analysis := r } else row) }

/-- The body of a `POST /tasks` request (`TaskCreate`): `task.dict()`
always contains all three keys, with a required description. -/
structure TaskCreate where
  description : String
  userStory : Option String
  contextV : Option String

/-- An HTTP-level outcome of an endpoint call. -/
inductive HttpOutcome where
  | created (r : AnalysisResult)
  | ok (r : AnalysisResult)
  | notFound (detail : String)
  | serverError (detail : String)

/-- Whether the outcome is a 500-class failure. -/
def HttpOutcome.isServerError : HttpOutcome → Bool
  | .serverError _ => true
  | _ => false

/-- Whether the outcome is a 201 Created response. -/
def HttpOutcome.isCreated : HttpOutcome → Bool
  | .created _ => true
  | _ => false

/-- `POST /tasks` (`create_task`): run the analysis; an `"error"` key in
the result raises `HTTPException(500)`, which the endpoint's own broad
`except` re-wraps (`str` of a starlette `HTTPException` is
`"500: <detail>"`), still surfacing as a 500. -/
def create_task (aiEnabled : Bool) (env : AgentEnv) (db : DbState)
    (t : TaskCreate) : HttpOutcome × DbState × List StepCall :=
  let td : TaskDetails :=
    { description := some t.description, userStory := t.userStory, contextV := t.contextV }
  match analyze_task aiEnabled env db td with
  | (.errorDict msg, db1, tr) =>
    (.serverError ("Task analysis failed: 500: " ++ msg), db1, tr)
  | (.result r, db1, tr) => (.created r, db1, tr)

/-- `POST /tasks/\x7btask_id\x7d/reanalyze` (`reanalyze_task`): 404 when the
task is absent; otherwise re-run `analyze_task` on the stored fields and
overwrite the task's analysis columns with the fresh result. -/
def reanalyze_task (aiEnabled : Bool) (env : AgentEnv) (db : DbState)
    (id : Nat) : HttpOutcome × DbState × List StepCall :=
  match get_task db id with
  | none => (.notFound "Task not found", db, [])
  | some row =>
    let td : TaskDetails :=
      { description := some row.description, userStory := row.userStory
        contextV := row.contextV }
    match analyze_task aiEnabled env db td with
    | (.errorDict msg, db1, tr) =>
      (.serverError ("Task reanalysis failed: 500: " ++ msg), db1, tr)
    | (.result r, db1, tr) => (.ok r, update_task db1 id r, tr)

/-- A successful task-analyzer dict (note the explicit `error: None` the
agent includes on success). -/
def okAnalyzerDict : List (String × JsonValue) :=
  [("category", .str "Feature Request"), ("priority", .str "High"), ("error", .null)]

/-- A successful user-stories dict. -/
def okStoriesDict : List (String × JsonValue) :=
  [("user_stories", .arr [.obj [("role", .str "user"), ("goal", .str "toggle theme"),
    ("benefit", .str "comfort"), ("acceptance_criteria", .arr [.str "has a switch"])]])]

/-- An environment in which every agent call succeeds. -/
def envOk : AgentEnv :=
  { analyzeTaskOp := fun _ _ _ => okAnalyzerDict
    generateUserStories := fun _ _ => okStoriesDict
    analyzeUx := fun _ _ _ => [("recommendations", .arr [])]
    designDatabase := fun _ _ => [("tables", .arr [])]
    breakDownTasks := fun _ _ _ _ => [("tasks", .arr [])]
    designTestStrategy := fun _ _ _ _ => [("unit_tests", .arr [])]
    analyzeSecurity := fun _ _ _ => [("vulnerabilities", .arr [])]
    estimateTimeline := fun _ => [("timeline", .obj [])]
    planInfrastructure := fun _ _ _ => [("infrastructure", .obj [])]
    elapsed := 3 }

/-- Like `envOk` but the Product step returns a parsing-error dict. -/
def envProductFail : AgentEnv :=
  { envOk with generateUserStories := fun _ _ =>
      [("error", .str "JSON Parsing Error"),
       ("message", .str "Failed to parse JSON output from Product Manager Agent.")] }

/-- An empty task store. -/
def dbEmpty : DbState := { tasks := [], execs := [] }

/-- A fully-absent analysis (all columns `NULL`). -/
def nullAnalysis : AnalysisResult :=
  { category := .null, priority := .null, user_stories := .null
    ux_recommendations := .null, database_design := .null
    technical_tasks := .null, test_strategy := .null
    security_analysis := .null, timeline_estimate := .null
    infrastructure_plan := .null }

/-- A valid create-task request. -/
def tcDark : TaskCreate :=
  { description := "Add dark mode", userStory := some "As a user, I want dark mode"
    contextV := some "Users requested theme switching" }

/-- The corresponding `task_details` dict. -/
def tdDark : TaskDetails :=
  { description := some "Add dark mode", userStory := some "As a user, I want dark mode"
    contextV := some "Users requested theme switching" }

/-- A `task_details` dict missing the `"description"` key. -/
def tdNoDesc : TaskDetails :=
  { description := none, userStory := some "Invalid task", contextV := none }

/-- A store holding one already-analyzed task with id 1. -/
def dbOne : DbState :=
  { tasks := [{ id := 1, description := "Add dark mode", userStory := some "s"
                contextV := some "c", status := "Analyzed", analysis := nullAnalysis }]
    execs := [] }

/-- The agent-call sequence the orchestrator performs when the Product
step fails: no UX call, and every story-consuming step receives the
degraded empty list, while the later steps receive whatever their own
upstream step produced (degraded to `[]`/`\x7b\x7d` when it failed). -/
def degradedTraceAfterProductFailure (env : AgentEnv) (d : String)
    (us ctx : Option String) : List StepCall :=
  let ddRaw := env.designDatabase (.arr []) ctx
  let ddArg := pyOrElse (if isErrorOutput ddRaw then none else some (.obj ddRaw)) (.obj [])
  let ttRaw := env.breakDownTasks d (.arr []) ddArg ctx
  let specsArg := pyOrElse (if isErrorOutput ttRaw then none else some (.obj ttRaw)) (.obj [])
  let tasksArg :=
    pyOrElse (if isErrorOutput ttRaw then none
      else some ((dictGet ttRaw "tasks").getD (.arr []))) (.arr [])
  [.analyzeTask d us ctx,
   .genStories d ctx,
   .designDb (.arr []) ctx,
   .breakDown d (.arr []) ddArg ctx,
   .testStrategy d (.arr []) specsArg ctx,
   .security d specsArg ctx,
   .timeline tasksArg,
   .infra d specsArg ctx]

/-- The `analysis_result` the orchestrator assembles when the Product
step fails: the UX field holds the dependency ErrorRecord, the
user-stories field holds the Product step's error dict, and the other
steps contribute their own results computed from degraded inputs. -/
def resultAfterProductFailure (env : AgentEnv) (d : String)
    (us ctx : Option String) : AnalysisResult :=
  let cpRaw := env.analyzeTaskOp d us ctx
  let ddRaw := env.designDatabase (.arr []) ctx
  let ddArg := pyOrElse (if isErrorOutput ddRaw then none else some (.obj ddRaw)) (.obj [])
  let ttRaw := env.breakDownTasks d (.arr []) ddArg ctx
  let specsArg := pyOrElse (if isErrorOutput ttRaw then none else some (.obj ttRaw)) (.obj [])
  let tasksArg :=
    pyOrElse (if isErrorOutput ttRaw then none
      else some ((dictGet ttRaw "tasks").getD (.arr []))) (.arr [])
  { category := if isErrorOutput cpRaw then JsonValue.str "Error"
      else (dictGet cpRaw "category").getD .null
    priority := if isErrorOutput cpRaw then JsonValue.str "Error"
      else (dictGet cpRaw "priority").getD .null
    user_stories := .obj (env.generateUserStories d ctx)
    ux_recommendations := dependencyErrorDict
    database_design := if isErrorOutput ddRaw then JsonValue.obj ddRaw
      else (dictGet ddRaw "tables").getD .null
    technical_tasks := if isErrorOutput ttRaw then JsonValue.obj ttRaw
      else (dictGet ttRaw "tasks").getD .null
    test_strategy := .obj (env.designTestStrategy d (.arr []) specsArg ctx)
    security_analysis := .obj (env.analyzeSecurity d specsArg ctx)
    timeline_estimate := .obj (env.estimateTimeline tasksArg)
    infrastructure_plan := .obj (env.planInfrastructure d specsArg ctx) }

/-- The string the bracket-span fallback (attempt 3) scans: the extracted
fenced-block body when one was found and is non-empty (Python truthiness
of the `extracted_json` variable), the original string otherwise. -/
def fallbackTarget (cs : List Char) : List Char :=
  match extract_json_from_markdown cs with
  | some e => if e.isEmpty then cs else e
  | none => cs

/-- The remainder after a serialized value never starts with a digit in
well-formed JSON text (it is empty or starts with a separator), which
keeps the number reader from swallowing following characters. -/
def headNotDigit (cs : List Char) : Bool :=
  match cs with
  | [] => true
  | c :: _ => !pyDigit c

/-- A character that can legitimately start a serialized JSON value: it
is not whitespace and not one of the closing/separator characters the
surrounding readers dispatch on. -/
abbrev startsValue (c : Char) : Prop :=
  isWsChar c = false ∧ c ≠ ']' ∧ c ≠ '}' ∧ c ≠ ','

/-- C1 counterexample: with no model credential configured
(`ai_enabled = false`), `POST /tasks` yields a top-level 500 failure —
`analyze_task` returns the dict `\x7b"error": ...\x7d` before any step runs and
the endpoint raises `HTTPException(500)` — not a 201 response with
ErrorRecord-shaped `category`/`priority` fields. -/
theorem create_task_without_credential_is_top_level_failure :
    (create_task false envOk dbEmpty tcDark).1.isServerError = true ∧
    (create_task false envOk dbEmpty tcDark).1.isCreated = false ∧
    (create_task false envOk dbEmpty tcDark).1 =
      .serverError ("Task analysis failed: 500: " ++
        "AI analysis not available - LLM configuration missing") := by
  refine ⟨rfl, rfl, rfl⟩

/-- C1 (amended): with AI enabled, the orchestrator never aborts the run
because an analysis step failed — for every environment (including ones
where every step returns an error dict) it assembles one `AnalysisResult`
covering all fields; but when no model credential is configured,
`analyze_task` short-circuits to a top-level error dict and `POST /tasks`
surfaces a 500-class failure rather than ErrorRecord-shaped
`category`/`priority` fields. -/
theorem analyze_task_never_aborts_and_missing_credential_is_500 :
    (∀ (env : AgentEnv) (db : DbState) (td : TaskDetails) (d : String),
      td.description = some d → (analyze_task true env db td).1.isResult = true) ∧
    (∀ (env : AgentEnv) (db : DbState) (t : TaskCreate),
      (create_task false env db t).1.isServerError = true) := by
  constructor
  · intro env db td d h
    simp [analyze_task, h, AnalyzeOutcome.isResult]
  · intro env db t
    simp [create_task, analyze_task, HttpOutcome.isServerError]

/-- Witness for C1's amended theorem at a concrete input. -/
theorem analyze_task_never_aborts_witness :
    (analyze_task true envOk dbEmpty tdDark).1.isResult = true ∧
    (create_task false envOk dbEmpty tcDark).1.isServerError = true :=
  ⟨analyze_task_never_aborts_and_missing_credential_is_500.1 envOk dbEmpty tdDark
      "Add dark mode" rfl,
    analyze_task_never_aborts_and_missing_credential_is_500.2 envOk dbEmpty tcDark⟩

/-- C2: when the Product step (user-story generation) fails, the UX step
is never invoked, the `ux_recommendations` field carries the
`Dependency Error` ErrorRecord, and the database-design,
technical-breakdown, test-strategy, security, timeline and
infrastructure steps all still execute, the story-consuming ones with the
degraded empty list as input. -/
theorem product_failure_short_circuits_ux_only
    (env : AgentEnv) (db : DbState) (td : TaskDetails) (d : String)
    (hdesc : td.description = some d)
    (hfail : isErrorOutput (env.generateUserStories d td.contextV) = true) :
    ((analyze_task true env db td).2.2.all (fun c => !c.isUx) = true) ∧
    ((analyze_task true env db td).1 =
      .result (resultAfterProductFailure env d td.userStory td.contextV)) ∧
    ((resultAfterProductFailure env d td.userStory td.contextV).ux_recommendations =
      dependencyErrorDict) ∧
    ((analyze_task true env db td).2.2 =
      degradedTraceAfterProductFailure env d td.userStory td.contextV) := by
  refine ⟨?_, ?_, rfl, ?_⟩
  · simp [analyze_task, hdesc, hfail, StepCall.isUx]
  · simp [analyze_task, hdesc, hfail, resultAfterProductFailure, pyOrElse]
  · simp [analyze_task, hdesc, hfail, degradedTraceAfterProductFailure, pyOrElse]

/-- Witness for C2 at a concrete failing Product step. -/
theorem product_failure_short_circuits_ux_only_witness :
    ((analyze_task true envProductFail dbEmpty tdDark).2.2.all (fun c => !c.isUx) = true) ∧
    ((analyze_task true envProductFail dbEmpty tdDark).1 =
      .result (resultAfterProductFailure envProductFail "Add dark mode"
        tdDark.userStory tdDark.contextV)) ∧
    ((resultAfterProductFailure envProductFail "Add dark mode"
        tdDark.userStory tdDark.contextV).ux_recommendations = dependencyErrorDict) ∧
    ((analyze_task true envProductFail dbEmpty tdDark).2.2 =
      degradedTraceAfterProductFailure envProductFail "Add dark mode"
        tdDark.userStory tdDark.contextV) :=
  product_failure_short_circuits_ux_only envProductFail dbEmpty tdDark
    "Add dark mode" rfl rfl

/-- C3: re-analysis of the existing task id 1 in a one-task store.  The
endpoint does overwrite task 1's analysis columns (its category becomes
the fresh `"Feature Request"`), but `analyze_task` unconditionally
inserts a brand-new `tasks` row, so the store ends with two task rows,
and the new `AgentExecution` row is keyed to the duplicate's id 2 rather
than to task 1. -/
theorem reanalyze_duplicates_task_row :
    ((reanalyze_task true envOk dbOne 1).2.1.tasks.map (fun t => t.id) = [1, 2]) ∧
    ((reanalyze_task true envOk dbOne 1).2.1.execs.map (fun e => e.taskId) = [2]) ∧
    ((reanalyze_task true envOk dbOne 1).2.1.tasks.head?.map
      (fun t => t.analysis.category) = some (.str "Feature Request")) := by
  refine ⟨rfl, rfl, rfl⟩

/-- C8 counterexample: a run that enters the orchestrator and fails with
an exception (the `task_details["description"]` subscript raises
`KeyError`) completes with the top-level error dict, yet writes no
`AgentExecution` record at all — not one with `success = false`. -/
theorem failed_run_writes_no_execution_record :
    ((analyze_task true envOk dbEmpty tdNoDesc).1 =
      .errorDict "Analysis failed: 'description'") ∧
    ((analyze_task true envOk dbEmpty tdNoDesc).2.1.execs = []) ∧
    ((analyze_task false envOk dbEmpty tdDark).2.1.execs = []) := by
  refine ⟨rfl, rfl, rfl⟩

/-- C8 (amended): every run that reaches the persistence step — AI
enabled and a description present, for any environment, including ones
where every step returns an ErrorRecord — appends exactly one
`AgentExecution` record: keyed to the new task, tagged
`comprehensive_analysis`, carrying the reported wall-clock duration,
with `success = true` (per-step ErrorRecords never flip it) and no error
message; the prior records are left untouched (append-only), and
`update_task` never modifies `agent_executions`.  Runs in which an
exception is raised inside the orchestrator, or with AI disabled, write
no record. -/
theorem completed_run_appends_one_successful_execution :
    (∀ (env : AgentEnv) (db : DbState) (td : TaskDetails) (d : String),
      td.description = some d →
      ∃ r : AnalysisResult,
        (analyze_task true env db td).2.1.execs = db.execs ++
          [{ taskId := db.tasks.length + 1, agentType := "comprehensive_analysis"
             inputData := td, outputData := r, executionTime := env.elapsed
             success := true, errorMessage := none }]) ∧
    (∀ (db : DbState) (id : Nat) (r : AnalysisResult),
      (update_task db id r).execs = db.execs) := by
  constructor
  · intro env db td d h
    simp only [analyze_task, h]
    exact ⟨_, rfl⟩
  · intro db id r
    rfl

/-- Witness for C8's amended theorem at a concrete run whose Product
step fails. -/
theorem completed_run_appends_one_execution_witness :
    (∃ r : AnalysisResult,
      (analyze_task true envProductFail dbEmpty tdDark).2.1.execs = dbEmpty.execs ++
        [{ taskId := dbEmpty.tasks.length + 1, agentType := "comprehensive_analysis"
           inputData := tdDark, outputData := r, executionTime := envProductFail.elapsed
           success := true, errorMessage := none }]) ∧
    ((update_task dbOne 1 nullAnalysis).execs = dbOne.execs) :=
  ⟨completed_run_appends_one_successful_execution.1 envProductFail dbEmpty tdDark
      "Add dark mode" rfl,
    completed_run_appends_one_successful_execution.2 dbOne 1 nullAnalysis⟩

/-- C9: a non-string argument (`None`, a number, an already-parsed
container) makes the parser return `None` immediately — the
`isinstance` guard fires before any parsing strategy. -/
theorem non_string_input_returns_none :
    ∀ k : NonStrInput, robustJsonParser (.nonStr k) = none :=
  fun _ => rfl

/-- C6: on a string that is pure valid JSON, the recovery parser returns
exactly what `json.loads` returns — attempt 1 succeeds and wins. -/
theorem pure_json_parses_directly (s : String) (v : JsonValue)
    (h : jsonLoads s.data = some v) :
    robustJsonParser (.str s) = some v := by
  simp [robustJsonParser, h]

/-- Witness for C6 on a concrete JSON document. -/
theorem pure_json_parses_directly_witness :
    jsonLoads ("[1, 2, \"three\"]").data = some (.arr [.num 1, .num 2, .str "three"]) ∧
    robustJsonParser (.str "[1, 2, \"three\"]") =
      some (.arr [.num 1, .num 2, .str "three"]) :=
  ⟨rfl, pure_json_parses_directly "[1, 2, \"three\"]" _ rfl⟩

/-- C5: when every strategy is exhausted — direct parse fails, any
extracted fenced body fails to parse, and the bracket-span candidate (on
the string attempt 3 scans) is absent or fails to parse — the recovery
parser returns `None`.  The embedding is a total function, so no
exception can escape on any input. -/
theorem exhausted_strategies_return_none (s : String)
    (h1 : jsonLoads s.data = none)
    (h2 : ∀ e, extract_json_from_markdown s.data = some e → jsonLoads e = none)
    (h3 : ∀ c, findJsonCandidate (fallbackTarget s.data) = some c → jsonLoads c = none) :
    robustJsonParser (.str s) = none := by
  simp only [robustJsonParser, h1]
  cases hx : extract_json_from_markdown s.data with
  | none =>
    have ht : fallbackTarget s.data = s.data := by simp [fallbackTarget, hx]
    cases hc : findJsonCandidate s.data with
    | none => simp [fallbackScan, hc]
    | some c =>
      simp [fallbackScan, hc, h3 c (by rw [ht]; exact hc)]
  | some e =>
    by_cases he : e.isEmpty
    · have ht : fallbackTarget s.data = s.data := by simp [fallbackTarget, hx, he]
      simp only [he, if_true]
      cases hc : findJsonCandidate s.data with
      | none => simp [fallbackScan, hc]
      | some c => simp [fallbackScan, hc, h3 c (by rw [ht]; exact hc)]
    · have ht : fallbackTarget s.data = e := by simp [fallbackTarget, hx, he]
      simp only [he, if_false, h2 e hx]
      cases hc : findJsonCandidate e with
      | none => simp [fallbackScan, hc]
      | some c => simp [fallbackScan, hc, h3 c (by rw [ht]; exact hc)]

/-- Witness for C5 on plain prose. -/
theorem exhausted_strategies_return_none_witness :
    robustJsonParser (.str "This is not JSON.") = none :=
  exhausted_strategies_return_none "This is not JSON." rfl
    (fun e h => by
      rw [show extract_json_from_markdown ("This is not JSON.").data = none from rfl] at h
      exact Option.noConfusion h)
    (fun c h => by
      rw [show findJsonCandidate (fallbackTarget ("This is not JSON.").data) = none
        from rfl] at h
      exact Option.noConfusion h)

/-- C4: when the scanned text holds both an object span and an array
span (`spanOf` is first-opening-bracket to last-closing-bracket of the
same kind, the leftmost-greedy regex match), the fallback selects
whichever span starts earliest and the parser's answer is `json.loads`
of that span.  Stated for inputs with no code fence, so attempt 3 scans
the original string. -/
theorem earliest_span_wins (s : String) (i j : Nat) (o a : List Char)
    (h1 : jsonLoads s.data = none)
    (h2 : extract_json_from_markdown s.data = none)
    (ho : spanOf '{' '}' s.data = some (i, o))
    (ha : spanOf '[' ']' s.data = some (j, a)) :
    robustJsonParser (.str s) = (if i < j then jsonLoads o else jsonLoads a) := by
  by_cases hij : i < j <;>
    simp [robustJsonParser, h1, h2, fallbackScan, findJsonCandidate, ho, ha, hij]

/-- Witness for C4: the array span starts before the object span, so the
array is the one parsed. -/
theorem earliest_span_wins_witness :
    robustJsonParser (.str "note [1, 2] and \x7b\"a\": 3\x7d") =
      (if 16 < 5 then jsonLoads ("\x7b\"a\": 3\x7d").data
        else jsonLoads ("[1, 2]").data) ∧
    (if 16 < 5 then jsonLoads ("\x7b\"a\": 3\x7d").data
        else jsonLoads ("[1, 2]").data) = some (.arr [.num 1, .num 2]) :=
  ⟨earliest_span_wins "note [1, 2] and \x7b\"a\": 3\x7d" 16 5
      ("\x7b\"a\": 3\x7d").data ("[1, 2]").data rfl rfl rfl rfl,
    rfl⟩

/-- C10 counterexample: the input holds a fenced block whose extracted
body is empty — hence not parseable as JSON — yet the fallback scan runs
on the original string (the `if extracted_json:` truthiness test skips
the empty body), recovering the array that lies outside the fence. -/
theorem empty_fence_scan_uses_original_string :
    extract_json_from_markdown ("``` ```[1, 2]").data = some [] ∧
    jsonLoads ([] : List Char) = none ∧
    robustJsonParser (.str "``` ```[1, 2]") = some (.arr [.num 1, .num 2]) :=
  ⟨rfl, rfl, rfl⟩

/-- C10 (amended): when the extracted fenced body is non-empty and not
parseable as JSON, the subsequent bracket-span fallback scans only that
body — the parser's answer is the fallback scan of the body, so JSON
outside the fence is not recovered. -/
theorem nonempty_fence_confines_fallback_scan (s : String) (e : List Char)
    (h1 : jsonLoads s.data = none)
    (h2 : extract_json_from_markdown s.data = some e)
    (h3 : e.isEmpty = false)
    (h4 : jsonLoads e = none) :
    robustJsonParser (.str s) = fallbackScan e := by
  simp [robustJsonParser, h1, h2, h3, h4]

/-- Witness for C10's amended theorem: the fence body is prose, and the
valid object outside the fence is not recovered. -/
theorem nonempty_fence_confines_fallback_scan_witness :
    robustJsonParser (.str "hi ```json not-json``` \x7b\"a\": 1\x7d") =
      fallbackScan ("not-json").data ∧
    fallbackScan ("not-json").data = none :=
  ⟨nonempty_fence_confines_fallback_scan "hi ```json not-json``` \x7b\"a\": 1\x7d"
      ("not-json").data rfl rfl rfl rfl,
    rfl⟩

/-- A decimal digit character can start a serialized value. -/
theorem pyDigit_startsValue (c : Char) (h : pyDigit c = true) : startsValue c := by
  have hb : 48 ≤ c.toNat ∧ c.toNat ≤ 57 := by
    simpa [pyDigit, Bool.and_eq_true, decide_eq_true_eq] using h
  refine ⟨?_, ?_, ?_, ?_⟩
  · cases hc : isWsChar c
    · rfl
    · exfalso
      have hd : ((c = ' ' ∨ c = '\t') ∨ c = '\n') ∨ c = '\r' := by
        simpa [isWsChar, Bool.or_eq_true, decide_eq_true_eq] using hc
      rcases hd with ((h1 | h1) | h1) | h1 <;> (subst h1; exact absurd hb (by decide))
  · intro h1; subst h1; exact absurd hb (by decide)
  · intro h1; subst h1; exact absurd hb (by decide)
  · intro h1; subst h1; exact absurd hb (by decide)

/-- A decimal digit character is none of the characters the value reader
dispatches on before the digit branch. -/
theorem pyDigit_not_dispatch (c : Char) (h : pyDigit c = true) :
    c ≠ 'n' ∧ c ≠ 't' ∧ c ≠ 'f' ∧ c ≠ '"' ∧ c ≠ '[' ∧ c ≠ '{' ∧ c ≠ '-' := by
  have hb : 48 ≤ c.toNat ∧ c.toNat ≤ 57 := by
    simpa [pyDigit, Bool.and_eq_true, decide_eq_true_eq] using h
  refine ⟨?_, ?_, ?_, ?_, ?_, ?_, ?_⟩ <;>
    (intro h1; subst h1; exact absurd hb (by decide))

/-- Skipping whitespace leaves a list alone when its head is not
whitespace. -/
theorem skipWs_cons (c : Char) (r : List Char) (h : isWsChar c = false) :
    skipWs (c :: r) = c :: r := by
  simp [skipWs, List.dropWhile_cons, h]

/-- Reading back an escaped string body recovers the original characters
and stops exactly at the closing quote. -/
theorem parseStrBody_escBody (s : List Char) :
    ∀ rest, parseStrBody (escBody s ++ '"' :: rest) = some (s, rest) := by
  induction s with
  | nil =>
    intro rest
    simp only [escBody, List.nil_append]
    rw [parseStrBody.eq_def]
    simp
  | cons c s ih =>
    intro rest
    by_cases h1 : c = '"'
    · subst h1; simp [escBody, escChar]; rw [parseStrBody.eq_def]; simp [unescChar, ih]
    · by_cases h2 : c = '\\'
      · subst h2; simp [escBody, escChar]; rw [parseStrBody.eq_def]; simp [unescChar, ih]
      · by_cases h3 : c = '\n'
        · subst h3; simp [escBody, escChar]; rw [parseStrBody.eq_def]; simp [unescChar, ih]
        · by_cases h4 : c = '\t'
          · subst h4; simp [escBody, escChar]; rw [parseStrBody.eq_def]; simp [unescChar, ih]
          · by_cases h5 : c = '\r'
            · subst h5; simp [escBody, escChar]; rw [parseStrBody.eq_def]; simp [unescChar, ih]
            · simp only [escBody, escChar, h1, h2, h3, h4, h5, if_false,
                List.singleton_append, List.cons_append]
              rw [parseStrBody.eq_def]
              simp [h1, h2, ih]

/-- The digit characters emitted for digit values below ten. -/
theorem pyDigit_digitChar (d : Nat) (h : d < 10) : pyDigit (digitChar d) = true := by
  interval_cases d <;> decide

/-- Code point of an emitted digit character. -/
theorem toNat_digitChar (d : Nat) (h : d < 10) : (digitChar d).toNat = 48 + d := by
  interval_cases d <;> decide

/-- Every character of the little-endian digit list is a decimal digit. -/
theorem natDigitsRev_all_digit :
    ∀ (f n : Nat) (c : Char), c ∈ natDigitsRev f n → pyDigit c = true := by
  intro f
  induction f with
  | zero => intro n c hc; simp [natDigitsRev] at hc
  | succ f ih =>
    intro n c hc
    by_cases h0 : n = 0
    · subst h0; simp [natDigitsRev] at hc
    · simp only [natDigitsRev, h0, if_false, List.mem_cons] at hc
      rcases hc with h1 | h1
      · subst h1; exact pyDigit_digitChar _ (Nat.mod_lt _ (by norm_num))
      · exact ih _ _ h1

/-- Folding the digit list back, most significant digit first, recovers
the number. -/
theorem natDigitsRev_foldr :
    ∀ (f n : Nat), n ≤ f →
      (natDigitsRev f n).foldr (fun c a => 10 * a + (c.toNat - 48)) 0 = n := by
  intro f
  induction f with
  | zero => intro n h; interval_cases n; simp [natDigitsRev]
  | succ f ih =>
    intro n h
    by_cases h0 : n = 0
    · subst h0; simp [natDigitsRev]
    · have hdiv : n / 10 ≤ f := by omega
      simp only [natDigitsRev, h0, if_false, List.foldr_cons, ih _ hdiv,
        toNat_digitChar _ (Nat.mod_lt _ (by norm_num))]
      omega

/-- Every character of `dumpNat n` is a decimal digit. -/
theorem dumpNat_all_digit (n : Nat) (c : Char) (hc : c ∈ dumpNat n) :
    pyDigit c = true := by
  by_cases h0 : n = 0
  · subst h0
    simp only [dumpNat, if_true, List.mem_singleton] at hc
    subst hc; decide
  · simp only [dumpNat, h0, if_false, List.mem_reverse] at hc
    exact natDigitsRev_all_digit _ _ _ hc

/-- `dumpNat` renders at least one character. -/
theorem dumpNat_ne_nil (n : Nat) : dumpNat n ≠ [] := by
  by_cases h0 : n = 0
  · subst h0; simp [dumpNat]
  · simp only [dumpNat, h0, if_false, ne_eq, List.reverse_eq_nil_iff]
    simp [natDigitsRev, h0]

/-- Reading the rendered digits back recovers the number. -/
theorem digitsVal_dumpNat (n : Nat) : digitsVal (dumpNat n) = n := by
  by_cases h0 : n = 0
  · subst h0; rfl
  · simp only [dumpNat, h0, if_false, digitsVal, List.foldl_reverse]
    exact natDigitsRev_foldr _ _ (by omega)

/-- `takeWhile`/`dropWhile` with the digit predicate split a digit run
followed by a non-digit remainder exactly at the boundary. -/
theorem takeWhile_pyDigit_append :
    ∀ (l r : List Char), (∀ c ∈ l, pyDigit c = true) → headNotDigit r = true →
      (l ++ r).takeWhile pyDigit = l ∧ (l ++ r).dropWhile pyDigit = r := by
  intro l
  induction l with
  | nil =>
    intro r _ hr
    cases r with
    | nil => simp
    | cons c t =>
      have hc : pyDigit c = false := by
        simpa [headNotDigit, Bool.not_eq_true'] using hr
      simp [List.takeWhile_cons, List.dropWhile_cons, hc]
  | cons c l ih =>
    intro r hl hr
    have hc : pyDigit c = true := hl c (List.mem_cons_self c l)
    have := ih r (fun d hd => hl d (List.mem_cons_of_mem c hd)) hr
    simp [List.takeWhile_cons, List.dropWhile_cons, hc, this.1, this.2]

/-- The value reader consumes exactly a rendered natural number. -/
theorem parseVal_dumpNat (f n : Nat) (rest : List Char)
    (hf : 1 ≤ f) (hr : headNotDigit rest = true) :
    parseVal f (dumpNat n ++ rest) = some (.num (Int.ofNat n), rest) := by
  obtain ⟨f1, rfl⟩ : ∃ f1, f = f1 + 1 := ⟨f - 1, by omega⟩
  obtain ⟨c, t, hct⟩ : ∃ c t, dumpNat n = c :: t := by
    cases hdn : dumpNat n with
    | nil => exact absurd hdn (dumpNat_ne_nil n)
    | cons c t => exact ⟨c, t, rfl⟩
  have hcd : pyDigit c = true :=
    dumpNat_all_digit n c (by rw [hct]; exact List.mem_cons_self c t)
  obtain ⟨hn, ht1, hf1, hq1, hl1, hb1, hm1⟩ := pyDigit_not_dispatch c hcd
  have htw := takeWhile_pyDigit_append (dumpNat n) rest (dumpNat_all_digit n) hr
  rw [hct] at htw
  rw [hct, List.cons_append, parseVal.eq_def]
  simp only [hn, ht1, hf1, hq1, hl1, hb1, hm1, hcd, if_false, if_true,
    ← List.cons_append, htw.1, htw.2]
  rw [← hct, digitsVal_dumpNat]

/-- The value reader consumes exactly a rendered integer. -/
theorem parseVal_dumpInt (f : Nat) (n : Int) (rest : List Char)
    (hf : 1 ≤ f) (hr : headNotDigit rest = true) :
    parseVal f (dumpInt n ++ rest) = some (.num n, rest) := by
  by_cases hneg : n < 0
  · obtain ⟨f1, rfl⟩ : ∃ f1, f = f1 + 1 := ⟨f - 1, by omega⟩
    have htw := takeWhile_pyDigit_append (dumpNat n.natAbs) rest
      (dumpNat_all_digit n.natAbs) hr
    have hne : (dumpNat n.natAbs).isEmpty = false := by
      cases hdn : dumpNat n.natAbs with
      | nil => exact absurd hdn (dumpNat_ne_nil _)
      | cons c t => rfl
    simp only [dumpInt, if_pos hneg, List.cons_append]
    rw [parseVal.eq_def]
    simp [htw.1, htw.2, hne, digitsVal_dumpNat, abs_of_neg hneg]
  · simp only [dumpInt, if_neg hneg]
    rw [parseVal_dumpNat f n.toNat rest hf hr]
    have hval : Int.ofNat n.toNat = n := by
      simp only [Int.ofNat_eq_natCast]
      omega
    rw [hval]

/-- Every serialized value starts with a character that is not
whitespace and none of the closing/separator characters. -/
theorem dumpVal_head (v : JsonValue) :
    ∃ c t, dumpVal v = c :: t ∧ startsValue c := by
  cases v with
  | null => exact ⟨'n', ['u', 'l', 'l'], rfl, by decide⟩
  | bool b =>
    cases b with
    | true => exact ⟨'t', ['r', 'u', 'e'], rfl, by decide⟩
    | false => exact ⟨'f', ['a', 'l', 's', 'e'], rfl, by decide⟩
  | num n =>
    by_cases hneg : n < 0
    · exact ⟨'-', dumpNat n.natAbs, by simp [dumpVal, dumpInt, hneg], by decide⟩
    · obtain ⟨c, t, hct⟩ : ∃ c t, dumpNat n.toNat = c :: t := by
        cases hdn : dumpNat n.toNat with
        | nil => exact absurd hdn (dumpNat_ne_nil _)
        | cons c t => exact ⟨c, t, rfl⟩
      have hcd : pyDigit c = true :=
        dumpNat_all_digit _ c (by rw [hct]; exact List.mem_cons_self c t)
      exact ⟨c, t, by simp [dumpVal, dumpInt, hneg, hct], pyDigit_startsValue c hcd⟩
  | str s => exact ⟨'"', escBody s.data ++ ['"'], rfl, by decide⟩
  | arr xs => exact ⟨'[', dumpElemsSep xs ++ [']'], rfl, by decide⟩
  | obj fs => exact ⟨'{', dumpMembersSep fs ++ ['}'], rfl, by decide⟩

/-- Leading-whitespace skipping is a no-op in front of a serialized
value. -/
theorem skipWs_dump_append (v : JsonValue) (t : List Char) :
    skipWs (dumpVal v ++ t) = dumpVal v ++ t := by
  obtain ⟨c, t1, hct, hsv⟩ := dumpVal_head v
  rw [hct, List.cons_append]
  exact skipWs_cons c _ hsv.1

/-- Elements of a well-formed list are well-formed. -/
theorem wfList_mem : ∀ (xs : List JsonValue), wfList xs = true →
    ∀ x ∈ xs, wfJson x = true := by
  intro xs
  induction xs with
  | nil => intro _ x hx; simp at hx
  | cons y ys ih =>
    intro h x hx
    have h2 : wfJson y = true ∧ wfList ys = true := by
      simpa [wfList, Bool.and_eq_true] using h
    rcases List.mem_cons.mp hx with h3 | h3
    · subst h3; exact h2.1
    · exact ih h2.2 x h3

/-- Member values of a well-formed member list are well-formed. -/
theorem wfPairs_mem : ∀ (fs : List (String × JsonValue)), wfPairs fs = true →
    ∀ p ∈ fs, wfJson p.2 = true := by
  intro fs
  induction fs with
  | nil => intro _ p hp; simp at hp
  | cons q qs ih =>
    intro h p hp
    obtain ⟨k, v⟩ := q
    have h2 : wfJson v = true ∧ wfPairs qs = true := by
      simpa [wfPairs, Bool.and_eq_true] using h
    rcases List.mem_cons.mp hp with h3 | h3
    · subst h3; exact h2.1
    · exact ih h2.2 p h3

/-- Fuel bound for the element loop, relative to the serialized length. -/
theorem elemsFuel_le : ∀ (xs : List JsonValue),
    (∀ x ∈ xs, fuelNeed x ≤ 2 * (dumpVal x).length) →
    elemsFuel xs ≤ 2 * (dumpElemsSep xs).length + 2 := by
  intro xs
  induction xs with
  | nil => intro _; simp [elemsFuel]
  | cons x tail ih =>
    intro IH
    cases tail with
    | nil =>
      have h1 := IH x (List.mem_cons_self x [])
      simp only [elemsFuel, dumpElemsSep]
      omega
    | cons y ys =>
      have h1 := IH x (List.mem_cons_self x (y :: ys))
      have h2 := ih (fun z hz => IH z (List.mem_cons_of_mem x hz))
      simp only [elemsFuel, dumpElemsSep, List.length_append, List.length_cons] at h2 ⊢
      omega

/-- Fuel bound for the member loop, relative to the serialized length. -/
theorem membersFuel_le : ∀ (fs : List (String × JsonValue)),
    (∀ p ∈ fs, fuelNeed p.2 ≤ 2 * (dumpVal p.2).length) →
    membersFuel fs ≤ 2 * (dumpMembersSep fs).length + 2 := by
  intro fs
  induction fs with
  | nil => intro _; simp [membersFuel]
  | cons q qs ih =>
    intro IH
    obtain ⟨k, v⟩ := q
    cases qs with
    | nil =>
      have h1 : fuelNeed v ≤ 2 * (dumpVal v).length :=
        IH (k, v) (List.mem_cons_self (k, v) [])
      simp only [membersFuel, dumpMembersSep, List.length_append]
      omega
    | cons m ms =>
      have h1 : fuelNeed v ≤ 2 * (dumpVal v).length :=
        IH (k, v) (List.mem_cons_self (k, v) (m :: ms))
      have h2 := ih (fun z hz => IH z (List.mem_cons_of_mem (k, v) hz))
      simp only [membersFuel, dumpMembersSep, List.length_append, List.length_cons] at h2 ⊢
      omega

/-- The fuel budget of a value is at most twice its serialized length. -/
theorem fuelNeed_le : ∀ (N : Nat) (v : JsonValue), sizeOf v ≤ N →
    fuelNeed v ≤ 2 * (dumpVal v).length := by
  intro N
  induction N with
  | zero =>
    intro v h
    exfalso
    cases v <;> simp at h
  | succ N ihN =>
    intro v hv
    cases v with
    | null => simp [fuelNeed, dumpVal]
    | bool b => cases b <;> simp [fuelNeed, dumpVal]
    | num n =>
      obtain ⟨c, t, hct, _⟩ := dumpVal_head (JsonValue.num n)
      simp only [fuelNeed, hct, List.length_cons]
      omega
    | str s =>
      obtain ⟨c, t, hct, _⟩ := dumpVal_head (JsonValue.str s)
      simp only [fuelNeed, hct, List.length_cons]
      omega
    | arr xs =>
      have hs : sizeOf (JsonValue.arr xs) = 1 + sizeOf xs := by simp
      have hIH : ∀ x ∈ xs, fuelNeed x ≤ 2 * (dumpVal x).length := fun x hx => by
        have h1 := List.sizeOf_lt_of_mem hx
        exact ihN x (by omega)
      have := elemsFuel_le xs hIH
      simp only [fuelNeed, dumpVal, List.length_cons, List.length_append,
        List.length_singleton]
      omega
    | obj fs =>
      have hs : sizeOf (JsonValue.obj fs) = 1 + sizeOf fs := by simp
      have hIH : ∀ p ∈ fs, fuelNeed p.2 ≤ 2 * (dumpVal p.2).length := fun p hp => by
        have h1 := List.sizeOf_lt_of_mem hp
        obtain ⟨a, b⟩ := p
        have h2 : sizeOf (a, b) = 1 + sizeOf a + sizeOf b := by simp
        exact ihN b (by simp at h1 ⊢; omega)
      have := membersFuel_le fs hIH
      simp only [fuelNeed, dumpVal, List.length_cons, List.length_append,
        List.length_singleton]
      omega

/-- Whitespace at the head is consumed by the skipper. -/
theorem skipWs_ws_cons (c : Char) (L : List Char) (h : isWsChar c = true) :
    skipWs (c :: L) = skipWs L := by
  simp [skipWs, List.dropWhile_cons, h]

/-- A non-empty element list serializes to its head's serialization
followed by a tail. -/
theorem dumpElemsSep_cons (y : JsonValue) (ys : List JsonValue) :
    ∃ u, dumpElemsSep (y :: ys) = dumpVal y ++ u := by
  cases ys with
  | nil => exact ⟨[], by simp [dumpElemsSep]⟩
  | cons m ms => exact ⟨',' :: ' ' :: dumpElemsSep (m :: ms), rfl⟩

/-- Inserting a fresh key appends. -/
theorem objInsert_not_mem :
    ∀ (acc : List (String × JsonValue)) (k : String) (v : JsonValue),
      keyNotIn k acc = true → objInsert acc k v = acc ++ [(k, v)] := by
  intro acc
  induction acc with
  | nil => intro k v _; rfl
  | cons q rest ih =>
    intro k v h
    obtain ⟨k1, v1⟩ := q
    have h2 : (k1 ≠ k) ∧ keyNotIn k rest = true := by
      simpa [keyNotIn, List.all_cons, Bool.and_eq_true, decide_eq_true_eq] using h
    simp only [objInsert, if_neg h2.1, ih k v h2.2, List.cons_append]

/-- Reading back a serialized non-empty element list accumulates the
elements in order and stops at the closing bracket. -/
theorem parseElems_dump_aux :
    ∀ (xs : List JsonValue), xs ≠ [] →
    (∀ x ∈ xs, ∀ f rest, fuelNeed x ≤ f → headNotDigit rest = true →
      parseVal f (dumpVal x ++ rest) = some (x, rest)) →
    ∀ (acc : List JsonValue) (f : Nat) (rest : List Char), elemsFuel xs ≤ f →
      parseElems f (dumpElemsSep xs ++ ']' :: rest) acc = some (acc ++ xs, rest) := by
  intro xs
  induction xs with
  | nil => intro h; exact absurd rfl h
  | cons x tail ih =>
    intro _ IH acc f rest hf
    have hfx : 2 + fuelNeed x + elemsFuel tail ≤ f := by
      simpa [elemsFuel] using hf
    obtain ⟨f1, rfl⟩ : ∃ f1, f = f1 + 1 := ⟨f - 1, by omega⟩
    cases tail with
    | nil =>
      have hx := IH x (List.mem_cons_self x []) f1 (']' :: rest)
        (by simp [elemsFuel] at hfx ⊢; omega) rfl
      rw [parseElems.eq_def]
      simp only [dumpElemsSep, hx]
      rw [skipWs_cons ']' rest rfl]
      simp
    | cons y ys =>
      have hx := IH x (List.mem_cons_self x (y :: ys)) f1
        (',' :: ' ' :: (dumpElemsSep (y :: ys) ++ ']' :: rest))
        (by omega) rfl
      have hshape : dumpElemsSep (x :: y :: ys) ++ ']' :: rest =
          dumpVal x ++ (',' :: ' ' :: (dumpElemsSep (y :: ys) ++ ']' :: rest)) := by
        simp [dumpElemsSep]
      obtain ⟨u, hu⟩ := dumpElemsSep_cons y ys
      have hsw2 : skipWs (' ' :: (dumpElemsSep (y :: ys) ++ ']' :: rest)) =
          dumpElemsSep (y :: ys) ++ ']' :: rest := by
        calc skipWs (' ' :: (dumpElemsSep (y :: ys) ++ ']' :: rest))
            = skipWs (dumpElemsSep (y :: ys) ++ ']' :: rest) := skipWs_ws_cons ' ' _ rfl
          _ = skipWs (dumpVal y ++ (u ++ ']' :: rest)) := by rw [hu, List.append_assoc]
          _ = dumpVal y ++ (u ++ ']' :: rest) := skipWs_dump_append y _
          _ = dumpElemsSep (y :: ys) ++ ']' :: rest := by rw [← List.append_assoc, ← hu]
      have hrec := ih (by simp) (fun z hz => IH z (List.mem_cons_of_mem x hz))
        (acc ++ [x]) f1 rest (by simp [elemsFuel] at hfx ⊢; omega)
      rw [parseElems.eq_def, hshape]
      simp only [hx]
      rw [skipWs_cons ',' _ rfl]
      simp only [List.head?_cons, List.tail_cons]
      simp [hsw2, hrec]

/-- A non-empty member list serializes to its head key's serialization,
its head value's serialization, and a tail. -/
theorem dumpMembersSep_cons (k : String) (v : JsonValue)
    (fs : List (String × JsonValue)) :
    ∃ u, dumpMembersSep ((k, v) :: fs) = dumpKey k ++ (dumpVal v ++ u) := by
  cases fs with
  | nil => exact ⟨[], by simp [dumpMembersSep]⟩
  | cons m ms =>
    exact ⟨',' :: ' ' :: dumpMembersSep (m :: ms), by simp [dumpMembersSep]⟩

/-- Reading back a serialized non-empty member list with pairwise
distinct keys, all fresh for the accumulator, appends the members in
order and stops at the closing brace. -/
theorem parseMembers_dump_aux :
    ∀ (fs : List (String × JsonValue)), fs ≠ [] →
    (∀ p ∈ fs, ∀ f rest, fuelNeed p.2 ≤ f → headNotDigit rest = true →
      parseVal f (dumpVal p.2 ++ rest) = some (p.2, rest)) →
    noDupKeys fs = true →
    ∀ (acc : List (String × JsonValue)) (f : Nat) (rest : List Char),
      membersFuel fs ≤ f → (∀ p ∈ fs, keyNotIn p.1 acc = true) →
      parseMembers f (dumpMembersSep fs ++ '}' :: rest) acc = some (acc ++ fs, rest) := by
  intro fs
  induction fs with
  | nil => intro h; exact absurd rfl h
  | cons q qs ih =>
    intro _ IH hnd acc f rest hf hdisj
    obtain ⟨k, v⟩ := q
    have hfv : 2 + fuelNeed v + membersFuel qs ≤ f := by
      simpa [membersFuel] using hf
    obtain ⟨f1, rfl⟩ : ∃ f1, f = f1 + 1 := ⟨f - 1, by omega⟩
    have hndq : keyNotIn k qs = true ∧ noDupKeys qs = true := by
      simpa [noDupKeys, Bool.and_eq_true] using hnd
    have hins : objInsert acc k v = acc ++ [(k, v)] :=
      objInsert_not_mem acc k v (hdisj (k, v) (List.mem_cons_self (k, v) qs))
    cases qs with
    | nil =>
      have hv := IH (k, v) (List.mem_cons_self (k, v) []) f1 ('}' :: rest)
        (by simp [membersFuel] at hfv ⊢; omega) rfl
      have hshape : dumpMembersSep [(k, v)] ++ '}' :: rest =
          '"' :: (escBody k.data ++ '"' :: (':' :: ' ' :: (dumpVal v ++ '}' :: rest))) := by
        simp [dumpMembersSep, dumpKey]
      rw [parseMembers.eq_def, hshape]
      simp only [List.head?_cons, List.tail_cons, parseStrBody_escBody]
      rw [skipWs_cons ':' _ rfl]
      simp only [List.head?_cons, List.tail_cons]
      rw [skipWs_ws_cons ' ' _ rfl, skipWs_dump_append, hv]
      simp only [List.head?_cons, List.tail_cons]
      rw [skipWs_cons '}' _ rfl]
      simp [hins]
    | cons m ms =>
      have hv := IH (k, v) (List.mem_cons_self (k, v) (m :: ms)) f1
        (',' :: ' ' :: (dumpMembersSep (m :: ms) ++ '}' :: rest))
        (by show fuelNeed v ≤ f1; omega) rfl
      have hshape : dumpMembersSep ((k, v) :: m :: ms) ++ '}' :: rest =
          '"' :: (escBody k.data ++ '"' :: (':' :: ' ' ::
            (dumpVal v ++ (',' :: ' ' :: (dumpMembersSep (m :: ms) ++ '}' :: rest))))) := by
        simp [dumpMembersSep, dumpKey]
      rw [parseMembers.eq_def, hshape]
      simp only [List.head?_cons, List.tail_cons, parseStrBody_escBody]
      rw [skipWs_cons ':' _ rfl]
      simp only [List.head?_cons, List.tail_cons]
      rw [skipWs_ws_cons ' ' _ rfl, skipWs_dump_append, hv]
      simp only [List.head?_cons, List.tail_cons]
      rw [skipWs_cons ',' _ rfl]
      obtain ⟨u, hu⟩ := dumpMembersSep_cons m.1 m.2 ms
      have hsw2 : skipWs (' ' :: (dumpMembersSep (m :: ms) ++ '}' :: rest)) =
          dumpMembersSep (m :: ms) ++ '}' :: rest := by
        rw [skipWs_ws_cons ' ' _ rfl]
        rw [show (m : String × JsonValue) = (m.1, m.2) from rfl] at hu ⊢
        rw [hu]
        have hk : ∃ c t, dumpKey m.1 = c :: t ∧ isWsChar c = false :=
          ⟨'"', escBody m.1.data ++ ['"', ':', ' '], rfl, rfl⟩
        obtain ⟨c, t, hct, hcw⟩ := hk
        rw [hct, List.append_assoc, List.cons_append]
        exact skipWs_cons c _ hcw
      have hdisj2 : ∀ p ∈ m :: ms, keyNotIn p.1 (objInsert acc k v) = true := by
        intro p hp
        obtain ⟨a, b⟩ := p
        have h1 : keyNotIn a acc = true := hdisj (a, b) (List.mem_cons_of_mem (k, v) hp)
        have h2 : a ≠ k := by
          have h3 := hndq.1
          simp only [keyNotIn, List.all_eq_true, decide_eq_true_eq] at h3
          intro he
          subst he
          exact (h3 (a, b) hp) rfl
        rw [hins,
          show keyNotIn a (acc ++ [(k, v)]) = (keyNotIn a acc && keyNotIn a [(k, v)])
            from by simp [keyNotIn], h1]
        simp [keyNotIn, Ne.symm h2]
      have hrec := ih (by simp) (fun z hz => IH z (List.mem_cons_of_mem (k, v) hz))
        hndq.2 (objInsert acc k v) f1 rest
        (by simp [membersFuel] at hfv ⊢; omega) hdisj2
      simp only [List.head?_cons, List.tail_cons]
      rw [hins] at hrec
      simp [hsw2, hrec, hins, show String.mk k.data = k from rfl]

/-- Dispatch of the value reader on an opening bracket. -/
theorem parseVal_lbracket (f : Nat) (r : List Char) :
    parseVal (f + 1) ('[' :: r) = parseArr f (skipWs r) := rfl

/-- Dispatch of the value reader on an opening brace. -/
theorem parseVal_lbrace (f : Nat) (r : List Char) :
    parseVal (f + 1) ('{' :: r) = parseObj f (skipWs r) := rfl

/-- One step of the array reader. -/
theorem parseArr_succ (f : Nat) (cs : List Char) :
    parseArr (f + 1) cs = if cs.head? = some ']' then some (.arr [], cs.tail)
      else (parseElems f cs []).map (fun p => (.arr p.1, p.2)) := rfl

/-- One step of the object reader. -/
theorem parseObj_succ (f : Nat) (cs : List Char) :
    parseObj (f + 1) cs = if cs.head? = some '}' then some (.obj [], cs.tail)
      else (parseMembers f cs []).map (fun p => (.obj p.1, p.2)) := rfl

/-- Round trip: with enough fuel, the value reader consumes exactly the
serialization of a well-formed value and leaves the remainder intact. -/
theorem parse_dump : ∀ (N : Nat) (v : JsonValue), sizeOf v ≤ N → wfJson v = true →
    ∀ (f : Nat) (rest : List Char), fuelNeed v ≤ f → headNotDigit rest = true →
      parseVal f (dumpVal v ++ rest) = some (v, rest) := by
  intro N
  induction N with
  | zero =>
    intro v h
    exfalso
    cases v <;> simp at h
  | succ N ihN =>
    intro v hsz hwf f rest hf hr
    cases v with
    | null =>
      obtain ⟨f1, rfl⟩ : ∃ f1, f = f1 + 1 := ⟨f - 1, by simp [fuelNeed] at hf; omega⟩
      rw [show dumpVal .null ++ rest = 'n' :: 'u' :: 'l' :: 'l' :: rest from rfl]
      rw [parseVal.eq_def]
      simp [List.isPrefixOf]
    | bool b =>
      obtain ⟨f1, rfl⟩ : ∃ f1, f = f1 + 1 := ⟨f - 1, by simp [fuelNeed] at hf; omega⟩
      cases b
      · rw [show dumpVal (.bool false) ++ rest = 'f' :: 'a' :: 'l' :: 's' :: 'e' :: rest
          from rfl]
        rw [parseVal.eq_def]
        simp [List.isPrefixOf]
      · rw [show dumpVal (.bool true) ++ rest = 't' :: 'r' :: 'u' :: 'e' :: rest from rfl]
        rw [parseVal.eq_def]
        simp [List.isPrefixOf]
    | num n =>
      exact parseVal_dumpInt f n rest (by simp [fuelNeed] at hf; omega) hr
    | str s =>
      obtain ⟨f1, rfl⟩ : ∃ f1, f = f1 + 1 := ⟨f - 1, by simp [fuelNeed] at hf; omega⟩
      rw [show dumpVal (.str s) ++ rest = '"' :: (escBody s.data ++ '"' :: rest) from by
        simp [dumpVal]]
      rw [parseVal.eq_def]
      simp [parseStrBody_escBody]
    | arr xs =>
      have hfa : 2 + elemsFuel xs ≤ f := by simpa [fuelNeed] using hf
      obtain ⟨f2, rfl⟩ : ∃ f2, f = f2 + 2 := ⟨f - 2, by omega⟩
      rw [show dumpVal (.arr xs) ++ rest = '[' :: (dumpElemsSep xs ++ ']' :: rest) from by
        simp [dumpVal]]
      rw [show f2 + 2 = (f2 + 1) + 1 from rfl, parseVal_lbracket]
      cases xs with
      | nil =>
        rw [show dumpElemsSep ([] : List JsonValue) ++ ']' :: rest = ']' :: rest from rfl]
        rw [skipWs_cons ']' rest rfl, parseArr_succ]
        simp
      | cons y ys =>
        obtain ⟨u, hu⟩ := dumpElemsSep_cons y ys
        obtain ⟨c, t, hct, hsv⟩ := dumpVal_head y
        have hsw : skipWs (dumpElemsSep (y :: ys) ++ ']' :: rest) =
            dumpElemsSep (y :: ys) ++ ']' :: rest := by
          calc skipWs (dumpElemsSep (y :: ys) ++ ']' :: rest)
              = skipWs (dumpVal y ++ (u ++ ']' :: rest)) := by rw [hu, List.append_assoc]
            _ = dumpVal y ++ (u ++ ']' :: rest) := skipWs_dump_append y _
            _ = dumpElemsSep (y :: ys) ++ ']' :: rest := by
                rw [← List.append_assoc, ← hu]
        rw [hsw, parseArr_succ]
        have hhead : (dumpElemsSep (y :: ys) ++ ']' :: rest).head? = some c := by
          rw [hu, List.append_assoc, hct, List.cons_append]
          rfl
        rw [hhead, if_neg (by intro hc; exact hsv.2.1 (Option.some.injEq c ']' ▸ hc))]
        have hIH : ∀ x ∈ y :: ys, ∀ g r2, fuelNeed x ≤ g → headNotDigit r2 = true →
            parseVal g (dumpVal x ++ r2) = some (x, r2) := by
          intro x hx g r2 hg hr2
          have hs1 := List.sizeOf_lt_of_mem hx
          have hs2 : sizeOf (JsonValue.arr (y :: ys)) = 1 + sizeOf (y :: ys) := by simp
          refine ihN x (by omega) ?_ g r2 hg hr2
          exact wfList_mem (y :: ys) (by simpa [wfJson] using hwf) x hx
        have hloop := parseElems_dump_aux (y :: ys) (by simp) hIH [] f2 rest
          (by omega)
        rw [hloop]
        simp
    | obj fs =>
      have hfo : 2 + membersFuel fs ≤ f := by simpa [fuelNeed] using hf
      obtain ⟨f2, rfl⟩ : ∃ f2, f = f2 + 2 := ⟨f - 2, by omega⟩
      have hwf2 : noDupKeys fs = true ∧ wfPairs fs = true := by
        simpa [wfJson, Bool.and_eq_true] using hwf
      rw [show dumpVal (.obj fs) ++ rest = '{' :: (dumpMembersSep fs ++ '}' :: rest) from by
        simp [dumpVal]]
      rw [show f2 + 2 = (f2 + 1) + 1 from rfl, parseVal_lbrace]
      cases fs with
      | nil =>
        rw [show dumpMembersSep ([] : List (String × JsonValue)) ++ '}' :: rest =
          '}' :: rest from rfl]
        rw [skipWs_cons '}' rest rfl, parseObj_succ]
        simp
      | cons q qs =>
        obtain ⟨k0, v0⟩ := q
        obtain ⟨u, hu⟩ := dumpMembersSep_cons k0 v0 qs
        have hsw : skipWs (dumpMembersSep ((k0, v0) :: qs) ++ '}' :: rest) =
            dumpMembersSep ((k0, v0) :: qs) ++ '}' :: rest := by
          calc skipWs (dumpMembersSep ((k0, v0) :: qs) ++ '}' :: rest)
              = skipWs ('"' :: (escBody k0.data ++ ['"', ':', ' '] ++
                  (dumpVal v0 ++ u) ++ '}' :: rest)) := by
                rw [hu]
                simp [dumpKey]
            _ = '"' :: (escBody k0.data ++ ['"', ':', ' '] ++
                  (dumpVal v0 ++ u) ++ '}' :: rest) := skipWs_cons '"' _ rfl
            _ = dumpMembersSep ((k0, v0) :: qs) ++ '}' :: rest := by
                rw [hu]
                simp [dumpKey]
        rw [hsw, parseObj_succ]
        have hhead : (dumpMembersSep ((k0, v0) :: qs) ++ '}' :: rest).head? = some '"' := by
          rw [hu]
          rfl
        rw [hhead, if_neg (by decide)]
        have hIH : ∀ p ∈ (k0, v0) :: qs, ∀ g r2, fuelNeed p.2 ≤ g →
            headNotDigit r2 = true → parseVal g (dumpVal p.2 ++ r2) = some (p.2, r2) := by
          intro p hp g r2 hg hr2
          obtain ⟨a, b⟩ := p
          have hs1 := List.sizeOf_lt_of_mem hp
          have hs2 : sizeOf (JsonValue.obj ((k0, v0) :: qs)) =
              1 + sizeOf ((k0, v0) :: qs) := by simp
          have hs3 : sizeOf (a, b) = 1 + sizeOf a + sizeOf b := by simp
          refine ihN b (by omega) ?_ g r2 hg hr2
          exact wfPairs_mem ((k0, v0) :: qs) hwf2.2 (a, b) hp
        have hloop := parseMembers_dump_aux ((k0, v0) :: qs) (by simp) hIH hwf2.1 []
          f2 rest (by omega)
          (by intro p hp; simp [keyNotIn])
        rw [hloop]
        simp

/-- `json.loads` of `json.dumps` of a well-formed value returns the
value. -/
theorem jsonLoads_dump (v : JsonValue) (hwf : wfJson v = true) :
    jsonLoads (dumpVal v) = some v := by
  unfold jsonLoads
  have h1 : skipWs (dumpVal v) = dumpVal v := by
    have h2 := skipWs_dump_append v []
    simpa using h2
  have h2 : parseVal (2 * (dumpVal v).length + 2) (dumpVal v ++ []) = some (v, []) :=
    parse_dump (sizeOf v) v le_rfl hwf _ []
      (by have h3 := fuelNeed_le (sizeOf v) v le_rfl; omega) rfl
  rw [List.append_nil] at h2
  rw [h1, h2]
  rfl

/-- Appending preserves list well-formedness. -/
theorem wfList_append : ∀ (a b : List JsonValue),
    wfList (a ++ b) = (wfList a && wfList b) := by
  intro a b
  induction a with
  | nil => simp [wfList]
  | cons x xs ih => simp [wfList, ih, Bool.and_assoc]

/-- Unfolding of the key-absence check on a cons cell. -/
theorem keyNotIn_cons (k1 a : String) (b : JsonValue)
    (rest : List (String × JsonValue)) :
    keyNotIn k1 ((a, b) :: rest) = (decide (a ≠ k1) && keyNotIn k1 rest) := rfl

/-- A key absent from an association list stays absent after inserting a
different key. -/
theorem keyNotIn_objInsert :
    ∀ (acc : List (String × JsonValue)) (k1 k : String) (v : JsonValue),
      k1 ≠ k → keyNotIn k1 acc = true → keyNotIn k1 (objInsert acc k v) = true := by
  intro acc
  induction acc with
  | nil =>
    intro k1 k v hne _
    simp only [objInsert, keyNotIn_cons, Bool.and_eq_true, decide_eq_true_eq]
    exact ⟨fun he => hne he.symm, rfl⟩
  | cons q rest ih =>
    intro k1 k v hne h
    obtain ⟨a, b⟩ := q
    rw [keyNotIn_cons, Bool.and_eq_true, decide_eq_true_eq] at h
    by_cases hak : a = k
    · subst hak
      simp only [objInsert, if_true]
      rw [keyNotIn_cons, Bool.and_eq_true, decide_eq_true_eq]
      exact ⟨fun he => hne he.symm, h.2⟩
    · simp only [objInsert, if_neg hak]
      rw [keyNotIn_cons, Bool.and_eq_true, decide_eq_true_eq]
      exact ⟨h.1, ih k1 k v hne h.2⟩

/-- Unfolding of key distinctness on a cons cell. -/
theorem noDupKeys_cons (a : String) (b : JsonValue)
    (rest : List (String × JsonValue)) :
    noDupKeys ((a, b) :: rest) = (keyNotIn a rest && noDupKeys rest) := rfl

/-- Dict assignment preserves key distinctness. -/
theorem noDupKeys_objInsert :
    ∀ (acc : List (String × JsonValue)) (k : String) (v : JsonValue),
      noDupKeys acc = true → noDupKeys (objInsert acc k v) = true := by
  intro acc
  induction acc with
  | nil => intro k v _; rfl
  | cons q rest ih =>
    intro k v h
    obtain ⟨a, b⟩ := q
    rw [noDupKeys_cons, Bool.and_eq_true] at h
    by_cases hak : a = k
    · subst hak
      simp only [objInsert, if_true]
      rw [noDupKeys_cons, Bool.and_eq_true]
      exact ⟨h.1, h.2⟩
    · simp only [objInsert, if_neg hak]
      rw [noDupKeys_cons, Bool.and_eq_true]
      exact ⟨keyNotIn_objInsert rest a k v hak h.1, ih k v h.2⟩

/-- Unfolding of member well-formedness on a cons cell. -/
theorem wfPairs_cons (a : String) (b : JsonValue)
    (rest : List (String × JsonValue)) :
    wfPairs ((a, b) :: rest) = (wfJson b && wfPairs rest) := rfl

/-- Dict assignment preserves member-value well-formedness. -/
theorem wfPairs_objInsert :
    ∀ (acc : List (String × JsonValue)) (k : String) (v : JsonValue),
      wfPairs acc = true → wfJson v = true → wfPairs (objInsert acc k v) = true := by
  intro acc
  induction acc with
  | nil =>
    intro k v _ hv
    rw [show objInsert [] k v = [(k, v)] from rfl, wfPairs_cons, hv]
    rfl
  | cons q rest ih =>
    intro k v h hv
    obtain ⟨a, b⟩ := q
    rw [wfPairs_cons, Bool.and_eq_true] at h
    by_cases hak : a = k
    · subst hak
      simp only [objInsert, if_true]
      rw [wfPairs_cons, hv, h.2]
      rfl
    · simp only [objInsert, if_neg hak]
      rw [wfPairs_cons, Bool.and_eq_true]
      exact ⟨h.1, ih k v h.2 hv⟩

/-- One step of the element loop. -/
theorem parseElems_succ (f : Nat) (cs : List Char) (acc : List JsonValue) :
    parseElems (f + 1) cs acc =
      match parseVal f cs with
      | none => none
      | some (v, r) =>
        let r1 := skipWs r
        if r1.head? = some ',' then parseElems f (skipWs r1.tail) (acc ++ [v])
        else if r1.head? = some ']' then some (acc ++ [v], r1.tail)
        else none := rfl

/-- One step of the member loop. -/
theorem parseMembers_succ (f : Nat) (cs : List Char)
    (acc : List (String × JsonValue)) :
    parseMembers (f + 1) cs acc =
      if cs.head? = some '"' then
        match parseStrBody cs.tail with
        | none => none
        | some (kcs, r1) =>
          let r2 := skipWs r1
          if r2.head? = some ':' then
            match parseVal f (skipWs r2.tail) with
            | none => none
            | some (v, r3) =>
              let acc1 := objInsert acc (String.mk kcs) v
              let r4 := skipWs r3
              if r4.head? = some ',' then parseMembers f (skipWs r4.tail) acc1
              else if r4.head? = some '}' then some (acc1, r4.tail)
              else none
          else none
      else none := rfl

/-- Every value the readers return is well-formed: object keys are
pairwise distinct at every level (the dict-assignment invariant). -/
theorem parse_wf : ∀ (f : Nat),
    (∀ cs v r, parseVal f cs = some (v, r) → wfJson v = true) ∧
    (∀ cs v r, parseArr f cs = some (v, r) → wfJson v = true) ∧
    (∀ cs acc out r, parseElems f cs acc = some (out, r) → wfList acc = true →
      wfList out = true) ∧
    (∀ cs v r, parseObj f cs = some (v, r) → wfJson v = true) ∧
    (∀ cs acc out r, parseMembers f cs acc = some (out, r) → noDupKeys acc = true →
      wfPairs acc = true → noDupKeys out = true ∧ wfPairs out = true) := by
  intro f
  induction f with
  | zero =>
    refine ⟨?_, ?_, ?_, ?_, ?_⟩
    · intro cs v r h
      rw [show parseVal 0 cs = none from rfl] at h
      exact Option.noConfusion h
    · intro cs v r h
      rw [show parseArr 0 cs = none from rfl] at h
      exact Option.noConfusion h
    · intro cs acc out r h
      rw [show parseElems 0 cs acc = none from rfl] at h
      exact Option.noConfusion h
    · intro cs v r h
      rw [show parseObj 0 cs = none from rfl] at h
      exact Option.noConfusion h
    · intro cs acc out r h
      rw [show parseMembers 0 cs acc = none from rfl] at h
      exact Option.noConfusion h
  | succ f ih =>
    obtain ⟨ihV, ihA, ihE, ihO, ihM⟩ := ih
    have stepV : ∀ cs v r, parseVal (f + 1) cs = some (v, r) → wfJson v = true := by
      intro cs v r h
      cases cs with
      | nil =>
        rw [show parseVal (f + 1) [] = none from rfl] at h
        exact Option.noConfusion h
      | cons c t =>
        rw [parseVal.eq_def] at h
        simp only at h
        split_ifs at h
        all_goals
          first
          | exact Option.noConfusion h
          | (simp only [Option.some.injEq, Prod.mk.injEq] at h;
             obtain ⟨hv, _⟩ := h; subst hv; rfl)
          | exact ihA _ _ _ h
          | exact ihO _ _ _ h
          | (rw [Option.map_eq_some'] at h; obtain ⟨p1, _, hp2⟩ := h;
             simp only [Prod.mk.injEq] at hp2; obtain ⟨hv, _⟩ := hp2; subst hv; rfl)
    refine ⟨stepV, ?_, ?_, ?_, ?_⟩
    · intro cs v r h
      rw [parseArr_succ] at h
      split_ifs at h with h1
      · simp only [Option.some.injEq, Prod.mk.injEq] at h
        obtain ⟨hv, _⟩ := h
        subst hv
        rfl
      · rw [Option.map_eq_some'] at h
        obtain ⟨⟨out, r1⟩, hpe, hp2⟩ := h
        simp only [Prod.mk.injEq] at hp2
        obtain ⟨hv, _⟩ := hp2
        subst hv
        exact ihE _ _ _ _ hpe rfl
    · intro cs acc out r h hacc
      rw [parseElems_succ] at h
      cases hpv : parseVal f cs with
      | none =>
        rw [hpv] at h
        exact Option.noConfusion h
      | some p =>
        obtain ⟨v1, r1⟩ := p
        rw [hpv] at h
        have hv1 : wfJson v1 = true := ihV _ _ _ hpv
        have haccv : wfList (acc ++ [v1]) = true := by
          rw [wfList_append]
          simp [hacc, wfList, hv1]
        simp only at h
        by_cases h1 : (skipWs r1).head? = some ','
        · rw [if_pos h1] at h
          exact ihE _ _ _ _ h haccv
        · rw [if_neg h1] at h
          by_cases h2 : (skipWs r1).head? = some ']'
          · rw [if_pos h2] at h
            simp only [Option.some.injEq, Prod.mk.injEq] at h
            obtain ⟨ho, _⟩ := h
            subst ho
            exact haccv
          · rw [if_neg h2] at h
            exact Option.noConfusion h
    · intro cs v r h
      rw [parseObj_succ] at h
      split_ifs at h with h1
      · simp only [Option.some.injEq, Prod.mk.injEq] at h
        obtain ⟨hv, _⟩ := h
        subst hv
        rfl
      · rw [Option.map_eq_some'] at h
        obtain ⟨⟨out, r1⟩, hpe, hp2⟩ := h
        simp only [Prod.mk.injEq] at hp2
        obtain ⟨hv, _⟩ := hp2
        subst hv
        have := ihM _ _ _ _ hpe rfl rfl
        show (noDupKeys out && wfPairs out) = true
        rw [Bool.and_eq_true]
        exact this
    · intro cs acc out r h haccN haccW
      rw [parseMembers_succ] at h
      by_cases h1 : cs.head? = some '"'
      · rw [if_pos h1] at h
        cases hps : parseStrBody cs.tail with
        | none =>
          rw [hps] at h
          exact Option.noConfusion h
        | some p =>
          obtain ⟨kcs, r1⟩ := p
          rw [hps] at h
          simp only at h
          by_cases h2 : (skipWs r1).head? = some ':'
          · rw [if_pos h2] at h
            cases hpv : parseVal f (skipWs (skipWs r1).tail) with
            | none =>
              rw [hpv] at h
              exact Option.noConfusion h
            | some q =>
              obtain ⟨v1, r3⟩ := q
              rw [hpv] at h
              have hv1 : wfJson v1 = true := ihV _ _ _ hpv
              have hinsN : noDupKeys (objInsert acc (String.mk kcs) v1) = true :=
                noDupKeys_objInsert acc (String.mk kcs) v1 haccN
              have hinsW : wfPairs (objInsert acc (String.mk kcs) v1) = true :=
                wfPairs_objInsert acc (String.mk kcs) v1 haccW hv1
              simp only at h
              by_cases h3 : (skipWs r3).head? = some ','
              · rw [if_pos h3] at h
                exact ihM _ _ _ _ h hinsN hinsW
              · rw [if_neg h3] at h
                by_cases h4 : (skipWs r3).head? = some '}'
                · rw [if_pos h4] at h
                  simp only [Option.some.injEq, Prod.mk.injEq] at h
                  obtain ⟨ho, _⟩ := h
                  subst ho
                  exact ⟨hinsN, hinsW⟩
                · rw [if_neg h4] at h
                  exact Option.noConfusion h
          · rw [if_neg h2] at h
            exact Option.noConfusion h
      · rw [if_neg h1] at h
        exact Option.noConfusion h

/-- Every value `json.loads` returns is well-formed. -/
theorem jsonLoads_wf (cs : List Char) (v : JsonValue)
    (h : jsonLoads cs = some v) : wfJson v = true := by
  unfold jsonLoads at h
  cases hpv : parseVal (2 * cs.length + 2) (skipWs cs) with
  | none => rw [hpv] at h; exact Option.noConfusion h
  | some p =>
    obtain ⟨v1, r⟩ := p
    rw [hpv] at h
    simp only at h
    by_cases h1 : (skipWs r).isEmpty
    · rw [if_pos h1] at h
      simp only [Option.some.injEq] at h
      subst h
      exact (parse_wf (2 * cs.length + 2)).1 _ _ _ hpv
    · rw [if_neg h1] at h
      exact Option.noConfusion h

/-- Every value the bracket-span fallback returns is well-formed. -/
theorem fallbackScan_wf (cs : List Char) (v : JsonValue)
    (h : fallbackScan cs = some v) : wfJson v = true := by
  unfold fallbackScan at h
  cases hc : findJsonCandidate cs with
  | none => rw [hc] at h; exact Option.noConfusion h
  | some c => rw [hc] at h; exact jsonLoads_wf c v h

/-- Every value the recovery parser returns is well-formed. -/
theorem robustJsonParser_wf (inp : PyInput) (v : JsonValue)
    (h : robustJsonParser inp = some v) : wfJson v = true := by
  cases inp with
  | nonStr k => exact Option.noConfusion h
  | str s =>
    unfold robustJsonParser at h
    simp only at h
    cases hj : jsonLoads s.data with
    | some w =>
      rw [hj] at h
      simp only [Option.some.injEq] at h
      subst h
      exact jsonLoads_wf s.data w hj
    | none =>
      rw [hj] at h
      simp only at h
      cases hx : extract_json_from_markdown s.data with
      | none =>
        rw [hx] at h
        exact fallbackScan_wf s.data v h
      | some e =>
        rw [hx] at h
        simp only at h
        split_ifs at h with h1
        · exact fallbackScan_wf s.data v h
        · cases hj2 : jsonLoads e with
          | some w =>
            rw [hj2] at h
            simp only [Option.some.injEq] at h
            subst h
            exact jsonLoads_wf e w hj2
          | none =>
            rw [hj2] at h
            exact fallbackScan_wf e v h

/-- C7: whenever the recovery parser succeeds, re-serializing its output
as JSON text (`json.dumps`) and parsing it again returns the same
structure — the direct-parse attempt succeeds on the serialized form. -/
theorem parse_serialize_parse_roundtrip (inp : PyInput) (v : JsonValue)
    (h : robustJsonParser inp = some v) :
    robustJsonParser (.str (String.mk (dumpVal v))) = some v := by
  have hwf : wfJson v = true := robustJsonParser_wf inp v h
  have hl : jsonLoads (String.mk (dumpVal v)).data = some v := jsonLoads_dump v hwf
  simp [robustJsonParser, hl]

/-- Witness for C7 at a concrete prose-wrapped input. -/
theorem parse_serialize_parse_roundtrip_witness :
    robustJsonParser (.str "reply: \x7b\"a\": [1, true], \"b\": \"x\"\x7d done") =
      some (.obj [("a", .arr [.num 1, .bool true]), ("b", .str "x")]) ∧
    robustJsonParser (.str (String.mk (dumpVal
        (.obj [("a", .arr [.num 1, .bool true]), ("b", .str "x")])))) =
      some (.obj [("a", .arr [.num 1, .bool true]), ("b", .str "x")]) :=
  ⟨rfl, parse_serialize_parse_roundtrip
    (.str "reply: \x7b\"a\": [1, true], \"b\": \"x\"\x7d done") _ rfl⟩
